import Mathlib

/-!
Verification of the docs-reviewer orchestration core (`src/docs_reviewer.py`):
a shallow embedding of the crawl/discovery state machine, the job lifecycle
poller, the heuristic JSON extractor, the URL-admissibility filter, the staged
review aggregation statistics, and the multi-source result merger, together
with theorems settling the specification claims about them.

Python dictionaries are embedded as association lists (`Jdict`) with
first-binding lookup and in-place update; JSON values are the inductive
`Json` with numbers as rationals; remote-service behaviour is an explicit
environment record universally quantified in the theorems.  The embedding is
value-semantic: Python object identity (aliasing between a dict and its
shallow copy) is not modelled; the one place the source could observe it
(in-place page-review appends surviving into the exception path of the
result merger) is outside every claim considered here.
-/

set_option maxHeartbeats 1600000

namespace DocsReviewer

/-- JSON values as produced by Python's `json.loads`: objects are association
lists (duplicate keys collapse to the last binding during parsing), numbers
are rationals (covering every finite decimal literal; the non-standard
`NaN`/`Infinity` extensions of Python's parser are out of scope). -/
inductive Json where
  | null : Json
  | bool (b : Bool) : Json
  | num (q : ℚ) : Json
  | str (s : String) : Json
  | arr (l : List Json) : Json
  | obj (m : List (String × Json)) : Json
deriving Repr

mutual

/-- Decidable equality for `Json` (hand-rolled because of the nested lists). -/
def Json.deq : (a b : Json) → Decidable (a = b)
  | .null, .null => isTrue rfl
  | .bool x, .bool y =>
      if h : x = y then isTrue (by rw [h]) else isFalse (by simp [h])
  | .num x, .num y =>
      if h : x = y then isTrue (by rw [h]) else isFalse (by simp [h])
  | .str x, .str y =>
      if h : x = y then isTrue (by rw [h]) else isFalse (by simp [h])
  | .arr l, .arr l' =>
      match Json.deqList l l' with
      | isTrue h => isTrue (by rw [h])
      | isFalse h => isFalse (by simp [h])
  | .obj m, .obj m' =>
      match Json.deqObj m m' with
      | isTrue h => isTrue (by rw [h])
      | isFalse h => isFalse (by simp [h])
  | .null, .bool _ => isFalse (by simp)
  | .null, .num _ => isFalse (by simp)
  | .null, .str _ => isFalse (by simp)
  | .null, .arr _ => isFalse (by simp)
  | .null, .obj _ => isFalse (by simp)
  | .bool _, .null => isFalse (by simp)
  | .bool _, .num _ => isFalse (by simp)
  | .bool _, .str _ => isFalse (by simp)
  | .bool _, .arr _ => isFalse (by simp)
  | .bool _, .obj _ => isFalse (by simp)
  | .num _, .null => isFalse (by simp)
  | .num _, .bool _ => isFalse (by simp)
  | .num _, .str _ => isFalse (by simp)
  | .num _, .arr _ => isFalse (by simp)
  | .num _, .obj _ => isFalse (by simp)
  | .str _, .null => isFalse (by simp)
  | .str _, .bool _ => isFalse (by simp)
  | .str _, .num _ => isFalse (by simp)
  | .str _, .arr _ => isFalse (by simp)
  | .str _, .obj _ => isFalse (by simp)
  | .arr _, .null => isFalse (by simp)
  | .arr _, .bool _ => isFalse (by simp)
  | .arr _, .num _ => isFalse (by simp)
  | .arr _, .str _ => isFalse (by simp)
  | .arr _, .obj _ => isFalse (by simp)
  | .obj _, .null => isFalse (by simp)
  | .obj _, .bool _ => isFalse (by simp)
  | .obj _, .num _ => isFalse (by simp)
  | .obj _, .str _ => isFalse (by simp)
  | .obj _, .arr _ => isFalse (by simp)

def Json.deqList : (l l' : List Json) → Decidable (l = l')
  | [], [] => isTrue rfl
  | [], _ :: _ => isFalse (by simp)
  | _ :: _, [] => isFalse (by simp)
  | a :: as, b :: bs =>
      match Json.deq a b, Json.deqList as bs with
      | isTrue h1, isTrue h2 => isTrue (by rw [h1, h2])
      | isFalse h1, _ => isFalse (by simp [h1])
      | _, isFalse h2 => isFalse (by simp [h2])

def Json.deqObj : (m m' : List (String × Json)) → Decidable (m = m')
  | [], [] => isTrue rfl
  | [], _ :: _ => isFalse (by simp)
  | _ :: _, [] => isFalse (by simp)
  | (k, a) :: as, (k', b) :: bs =>
      match String.decEq k k', Json.deq a b, Json.deqObj as bs with
      | isTrue hk, isTrue h1, isTrue h2 => isTrue (by rw [hk, h1, h2])
      | isFalse hk, _, _ => isFalse (by simp [hk])
      | _, isFalse h1, _ => isFalse (by simp [h1])
      | _, _, isFalse h2 => isFalse (by simp [h2])

end

instance : DecidableEq Json := Json.deq

instance {ε α : Type} [DecidableEq ε] [DecidableEq α] : DecidableEq (Except ε α) :=
  fun a b =>
    match a, b with
    | .ok x, .ok y => if h : x = y then isTrue (by rw [h]) else isFalse (by simp [h])
    | .error x, .error y => if h : x = y then isTrue (by rw [h]) else isFalse (by simp [h])
    | .ok _, .error _ => isFalse (by simp)
    | .error _, .ok _ => isFalse (by simp)

/-- Association-list dictionary holding JSON values, the embedding of every
Python `dict` appearing in the source. -/
abbrev Jdict := List (String × Json)

/-- `d.get(k)`: first binding of `k` (well-formed dicts have unique keys). -/
def dget (d : Jdict) (k : String) : Option Json :=
  match d.find? (fun p => p.1 = k) with
  | some p => some p.2
  | none => none

/-- `k in d` for a Python dict. -/
def dcontains (d : Jdict) (k : String) : Bool :=
  (dget d k).isSome

/-- `d[k] = v`: replace the binding in place if the key is present, else
append a new binding (matching Python dict insertion order). -/
def dset (d : Jdict) (k : String) (v : Json) : Jdict :=
  match d with
  | [] => [(k, v)]
  | (k', v') :: rest =>
      if k' = k then (k', v) :: rest else (k', v') :: dset rest k v

/-- Python truthiness of a JSON value (`if x:`). -/
def jtruthy : Json → Bool
  | .null => false
  | .bool b => b
  | .num q => q ≠ 0
  | .str s => s ≠ ""
  | .arr l => !l.isEmpty
  | .obj m => !m.isEmpty

/-- Whether a JSON value is an object (Python `isinstance(x, dict)`). -/
def Json.isObj : Json → Bool
  | .obj _ => true
  | _ => false

/-- Python whitespace stripped by `str.strip()` (ASCII fragment). -/
def pyWs (c : Char) : Bool :=
  c = ' ' || c = '\t' || c = '\n' || c = '\r' || c = '\x0b' || c = '\x0c'

/-- `text.strip()` on the underlying character list. -/
def pyStripL (l : List Char) : List Char :=
  ((l.dropWhile pyWs).reverse.dropWhile pyWs).reverse

/-- `text.strip()`. -/
def pyStrip (s : String) : String := String.mk (pyStripL s.data)

/-- Substring test (`needle in hay` on Python strings), on character lists. -/
def strContains (needle hay : List Char) : Bool :=
  match hay with
  | [] => needle.isEmpty
  | _ :: t => needle.isPrefixOf hay || strContains needle t

/-! ### A model of Python's `json.loads`

Standard JSON: objects, arrays, strings (with escapes; a lone `\\u` surrogate
escape degrades to a replacement character), numbers (integer, fraction,
exponent — represented exactly as rationals), `true`/`false`/`null`, the four
JSON whitespace characters between tokens, and whole-input consumption.
Duplicate object keys collapse to the last binding, as in a Python dict. -/

/-- JSON inter-token whitespace. -/
def jsonWsChar (c : Char) : Bool :=
  c = ' ' || c = '\t' || c = '\n' || c = '\r'

def skipJsonWs : List Char → List Char
  | [] => []
  | c :: cs => if jsonWsChar c then skipJsonWs cs else c :: cs

/-- Value of a hexadecimal digit. -/
def hexVal (c : Char) : Option Nat :=
  if '0' ≤ c && c ≤ '9' then some (c.toNat - 48)
  else if 'a' ≤ c && c ≤ 'f' then some (c.toNat - 87)
  else if 'A' ≤ c && c ≤ 'F' then some (c.toNat - 55)
  else none

/-- Numeric value of a list of decimal digits. -/
def digitsVal (l : List Char) : Nat :=
  l.foldl (fun n c => n * 10 + (c.toNat - 48)) 0

/-- Parse a JSON string body (cursor just past the opening quote),
accumulating decoded characters; raw control characters are rejected
(`strict=True`, Python's default). -/
def parseJStr : Nat → List Char → List Char → Option (String × List Char)
  | 0, _, _ => none
  | fuel + 1, acc, cs =>
    match cs with
    | [] => none
    | '"' :: rest => some (String.mk acc.reverse, rest)
    | '\\' :: e :: rest =>
        if e = '"' then parseJStr fuel ('"' :: acc) rest
        else if e = '\\' then parseJStr fuel ('\\' :: acc) rest
        else if e = '/' then parseJStr fuel ('/' :: acc) rest
        else if e = 'b' then parseJStr fuel ('\x08' :: acc) rest
        else if e = 'f' then parseJStr fuel ('\x0c' :: acc) rest
        else if e = 'n' then parseJStr fuel ('\n' :: acc) rest
        else if e = 'r' then parseJStr fuel ('\r' :: acc) rest
        else if e = 't' then parseJStr fuel ('\t' :: acc) rest
        else if e = 'u' then
          match rest with
          | a :: b :: c :: d :: rest2 =>
              match hexVal a, hexVal b, hexVal c, hexVal d with
              | some x, some y, some z, some w =>
                  parseJStr fuel (Char.ofNat (((x * 16 + y) * 16 + z) * 16 + w) :: acc) rest2
              | _, _, _, _ => none
          | _ => none
        else none
    | c :: rest =>
        if c.toNat < 32 then none else parseJStr fuel (c :: acc) rest

/-- Parse the fraction part of a JSON number: either absent, or a dot
followed by at least one digit. -/
def parseJFrac : List Char → Option (List Char × List Char)
  | '.' :: t =>
      let p := t.span Char.isDigit
      if p.1.isEmpty then none else some (p.1, p.2)
  | cs => some ([], cs)

/-- Parse the exponent part of a JSON number: either absent, or `e`/`E`, an
optional sign, and at least one digit. -/
def parseJExp : List Char → Option (Int × List Char)
  | [] => some (0, [])
  | e :: t =>
      if e = 'e' || e = 'E' then
        let sp : Int × List Char :=
          match t with
          | '+' :: u => (1, u)
          | '-' :: u => (-1, u)
          | _ => (1, t)
        let p := sp.2.span Char.isDigit
        if p.1.isEmpty then none else some (sp.1 * (digitsVal p.1 : Int), p.2)
      else some (0, e :: t)

/-- Parse a JSON number (leading-zero rule included); the exact rational
value. -/
def parseJNum (cs : List Char) : Option (ℚ × List Char) :=
  let sg : Bool × List Char := match cs with | '-' :: t => (true, t) | _ => (false, cs)
  match sg.2 with
  | c :: _ =>
      if c = '0' || ('1' ≤ c && c ≤ '9') then
        let ip : List Char × List Char :=
          if c = '0' then ([c], sg.2.tail) else sg.2.span Char.isDigit
        match parseJFrac ip.2 with
        | none => none
        | some (fd, r2) =>
            match parseJExp r2 with
            | none => none
            | some (ev, r3) =>
                let mant : ℤ := (digitsVal ip.1 * 10 ^ fd.length + digitsVal fd : ℕ)
                let signed : ℤ := if sg.1 then -mant else mant
                let e10 : ℤ := ev - fd.length
                some (mkRat (signed * 10 ^ e10.toNat) (10 ^ (-e10).toNat), r3)
      else none
  | [] => none

mutual

/-- Parse one JSON value (cursor at its first character). -/
def parseJVal : Nat → List Char → Option (Json × List Char)
  | 0, _ => none
  | fuel + 1, cs =>
    match cs with
    | [] => none
    | c :: rest =>
        if c = '"' then
          match parseJStr (rest.length + 1) [] rest with
          | some (s, r) => some (.str s, r)
          | none => none
        else if c = '{' then
          match skipJsonWs rest with
          | '}' :: r2 => some (.obj [], r2)
          | r => parseJMembers fuel [] r
        else if c = '[' then
          match skipJsonWs rest with
          | ']' :: r2 => some (.arr [], r2)
          | r => parseJElems fuel [] r
        else if c = 't' then
          if rest.take 3 = ['r', 'u', 'e'] then some (.bool true, rest.drop 3) else none
        else if c = 'f' then
          if rest.take 4 = ['a', 'l', 's', 'e'] then some (.bool false, rest.drop 4) else none
        else if c = 'n' then
          if rest.take 3 = ['u', 'l', 'l'] then some (.null, rest.drop 3) else none
        else if c = '-' || c.isDigit then
          match parseJNum cs with
          | some (q, r) => some (.num q, r)
          | none => none
        else none

/-- Parse object members (cursor at the opening quote of a key). -/
def parseJMembers : Nat → List (String × Json) → List Char → Option (Json × List Char)
  | 0, _, _ => none
  | fuel + 1, acc, cs =>
    match cs with
    | '"' :: rest =>
        match parseJStr (rest.length + 1) [] rest with
        | some (k, r1) =>
            match skipJsonWs r1 with
            | ':' :: r2 =>
                match parseJVal fuel (skipJsonWs r2) with
                | some (v, r3) =>
                    let acc2 := dset acc k v
                    match skipJsonWs r3 with
                    | ',' :: r4 => parseJMembers fuel acc2 (skipJsonWs r4)
                    | '}' :: r4 => some (.obj acc2, r4)
                    | _ => none
                | none => none
            | _ => none
        | none => none
    | _ => none

/-- Parse array elements (cursor at the first character of an element). -/
def parseJElems : Nat → List Json → List Char → Option (Json × List Char)
  | 0, _, _ => none
  | fuel + 1, acc, cs =>
      match parseJVal fuel cs with
      | some (v, r1) =>
          match skipJsonWs r1 with
          | ',' :: r2 => parseJElems fuel (acc ++ [v]) (skipJsonWs r2)
          | ']' :: r2 => some (.arr (acc ++ [v]), r2)
          | _ => none
      | none => none

end

/-- `json.loads` on a character list: one document, whole input consumed. -/
def jsonLoadsL (cs : List Char) : Option Json :=
  match parseJVal (cs.length + 1) (skipJsonWs cs) with
  | some (j, r) => if skipJsonWs r = [] then some j else none
  | none => none

/-- `json.loads` on a string. -/
def jsonLoads (s : String) : Option Json := jsonLoadsL s.data

/-! ### `_extract_json_from_text` (source lines 718–739)

The regex `\x7b[^\x7b\x7d]*(?:\x7b[^\x7b\x7d]*\x7d[^\x7b\x7d]*)*\x7d` admits
no useful backtracking (every `[^\x7b\x7d]*` is forced to stop at the next
brace), so `re.findall` is modelled by the deterministic left-to-right
scanner below. -/

/-- Characters other than braces (the `[^\x7b\x7d]` class). -/
def nonBrace (c : Char) : Bool := c ≠ '{' && c ≠ '}'

/-- Match the regex body after the opening brace: runs of non-brace
characters interleaved with one-level `\x7b…\x7d` groups, closed by `\x7d`.
Returns the full match and the remaining input. -/
def braceMatchAux : Nat → List Char → List Char → Option (List Char × List Char)
  | 0, _, _ => none
  | fuel + 1, acc, cs =>
    let p := cs.span nonBrace
    match p.2 with
    | '}' :: rest => some ((acc ++ p.1) ++ ['}'], rest)
    | '{' :: rest =>
        let q := rest.span nonBrace
        match q.2 with
        | '}' :: rest2 =>
            braceMatchAux fuel ((acc ++ p.1) ++ '{' :: (q.1 ++ ['}'])) rest2
        | _ => none
    | _ => none

/-- Try to match the brace regex at the head of the input. -/
def braceMatch (cs : List Char) : Option (List Char × List Char) :=
  match cs with
  | '{' :: rest => braceMatchAux (rest.length + 1) ['{'] rest
  | _ => none

/-- `re.findall` for the brace regex: scan left to right, non-overlapping,
advancing one character past a failed match position. -/
def reFindall : Nat → List Char → List (List Char)
  | 0, _ => []
  | fuel + 1, cs =>
    match cs with
    | [] => []
    | _ :: t =>
        match braceMatch cs with
        | some (m, rest) => m :: reFindall fuel rest
        | none => reFindall fuel t

def reFindallL (cs : List Char) : List (List Char) :=
  reFindall (cs.length + 1) cs

/-- First regex match that `json.loads` parses into a dict. -/
def firstDictMatch : List (List Char) → Option (List (String × Json))
  | [] => none
  | m :: ms =>
      match jsonLoadsL m with
      | some (.obj o) => some o
      | _ => firstDictMatch ms

/-- `_extract_json_from_text`: empty input gives the fixed sentinel, else the
first brace-delimited substring parsing to a dict, else a sentinel carrying
the stripped text. -/
def extract_json_from_text (text : String) : Json :=
  if text = "" then .obj [("raw_output", .str "No output")]
  else
    match firstDictMatch (reFindallL text.data) with
    | some o => .obj o
    | none => .obj [("raw_output", .str (pyStrip text))]

/-! ### `_is_documentation_url` (source lines 149–171) -/

/-- `skip_extensions` from the source. -/
def skip_extensions : List String :=
  [".pdf", ".zip", ".tar.gz", ".exe", ".dmg", ".png", ".jpg", ".gif",
   ".svg", ".css", ".js"]

/-- `skip_patterns` from the source. -/
def skip_patterns : List String :=
  ["/api/download/", "/files/", "/assets/", "/static/", "/_next/", "/_nuxt/"]

/-- `url.lower()` (ASCII fragment of Python's case folding). -/
def strToLower (s : String) : String := String.mk (s.data.map Char.toLower)

/-- `_is_documentation_url`: reject on a skip extension at the end of the
lowercased URL, a skip pattern inside the lowercased URL, or the anchor test
`'#' in url and url.split('#')[0] in url` on the original URL. -/
def is_documentation_url (url : String) : Bool :=
  let url_lower := strToLower url
  if skip_extensions.any (fun e => e.data.isSuffixOf url_lower.data) then false
  else if skip_patterns.any (fun p => strContains p.data url_lower.data) then false
  else if url.data.contains '#' &&
      strContains (url.data.takeWhile (fun c => c != '#')) url.data then false
  else true

/-- Drop everything up to and including the first occurrence of `needle`;
`none` when `needle` does not occur. -/
def afterSub (needle : List Char) (hay : List Char) : Option (List Char) :=
  match hay with
  | [] => if needle.isEmpty then some [] else none
  | _ :: t =>
      if needle.isPrefixOf hay then some (hay.drop needle.length)
      else afterSub needle t

/-- `urlparse(u).netloc` for scheme-ful URLs: the host part between `://`
and the next `/`, `?` or `#` (empty when there is no `://`). -/
def netloc (u : String) : String :=
  match afterSub "://".data u.data with
  | some rest => String.mk (rest.takeWhile (fun c => c ≠ '/' && c ≠ '?' && c ≠ '#'))
  | none => ""

/-- `urlparse(u).path` for scheme-ful URLs: after the netloc, up to a query
or fragment (the whole pre-query string when there is no `://`). -/
def urlPathL (u : List Char) : List Char :=
  match afterSub "://".data u with
  | some rest =>
      (rest.dropWhile (fun c => c ≠ '/' && c ≠ '?' && c ≠ '#')).takeWhile
        (fun c => c ≠ '?' && c ≠ '#')
  | none => u.takeWhile (fun c => c ≠ '?' && c ≠ '#')

/-- Modelled from the spec: the URL-admissibility rejection condition as
claim C4 words it — the URL *path* ends with a known non-document extension,
or the URL contains a known non-content path segment, or the URL is a *pure
same-page anchor reference* (a bare `#fragment` link).  Used only to compare
the specification's wording against `is_documentation_url`. -/
def spec_reject_url (url : String) : Bool :=
  let url_lower := strToLower url
  skip_extensions.any (fun e => e.data.isSuffixOf (urlPathL url_lower.data)) ||
  skip_patterns.any (fun p => strContains p.data url_lower.data) ||
  ("#".data.isPrefixOf url.data)

/-! ### The discovery loop of `_exhaustive_review` (source lines 81–147)

The link-extraction collaborator (`_extract_documentation_links`, a remote
job) is an oracle indexed by the call counter, so the theorems quantify over
every behaviour, including per-call variation and raised exceptions
(`none`).  Python's sets are embedded as duplicate-free lists in insertion
order. -/

structure CrawlEnv where
  oracle : Nat → String → Option (List String)

/-- Crawl state: oracle-call counter, discovered list, processed list. -/
abbrev CrawlState := Nat × List String × List String

/-- `discovered_urls - processed_urls` in insertion order. -/
def frontier (disc proc : List String) : List String :=
  disc.filter (fun u => !(proc.contains u))

/-- Process one URL of a round: skip if already processed, otherwise call
the oracle, admit new links (not yet discovered, containing the base
domain, passing `_is_documentation_url`), and mark the URL processed whether
the call succeeded or raised. -/
def crawlStep (env : CrawlEnv) (bd : List Char) (st : CrawlState) (url : String) :
    CrawlState :=
  if st.2.2.contains url then st
  else
    match env.oracle st.1 url with
    | some links =>
        let disc := links.foldl (fun d link =>
          if d.contains link then d
          else if strContains bd link.data && is_documentation_url link then d ++ [link]
          else d) st.2.1
        (st.1 + 1, disc, st.2.2 ++ [url])
    | none => (st.1 + 1, st.2.1, st.2.2 ++ [url])

/-- One crawling round: process up to 10 unprocessed URLs. -/
def doRound (env : CrawlEnv) (bd : List Char) (st : CrawlState) : CrawlState :=
  ((frontier st.2.1 st.2.2).take 10).foldl (crawlStep env bd) st

/-- The discovery `while` loop: stop on an empty frontier, on
`safety_limit < |discovered|`, or when the round counter passes 10.  The
fuel argument is a formality — the round counter alone bounds the
iteration count by 10. -/
def crawlLoop (env : CrawlEnv) (bd : List Char) (L : Nat) :
    Nat → Nat → CrawlState → List String
  | 0, _, st => st.2.1
  | fuel + 1, roundNum, st =>
      if (frontier st.2.1 st.2.2).isEmpty then st.2.1
      else if L < st.2.1.length then st.2.1
      else
        let st' := doRound env bd st
        if 10 < roundNum + 1 then st'.2.1
        else crawlLoop env bd L fuel (roundNum + 1) st'

/-- The discovery phase of `_exhaustive_review`: returns `discovered_urls`. -/
def exhaustiveDiscover (env : CrawlEnv) (start : String) (L : Nat) : List String :=
  crawlLoop env (netloc start).data L 11 1 (0, [start], [])

/-- Observation points of the discovery loop: the initial state, the start
of each round (with the round's up-to-10 pending URLs selected from the
frontier, entered only when the frontier is non-empty and the safety bound
has not been crossed), and the state after each individual URL crawl. -/
inductive CrawlReach (env : CrawlEnv) (bd : List Char) (L : Nat) (start : String) :
    Nat → List String → List String → List String → Prop
  | init : CrawlReach env bd L start 0 [start] [] []
  | startRound {c : Nat} {disc proc : List String} :
      CrawlReach env bd L start c disc proc [] →
      frontier disc proc ≠ [] →
      disc.length ≤ L →
      CrawlReach env bd L start c disc proc ((frontier disc proc).take 10)
  | stepUrl {c : Nat} {disc proc pending : List String} {url : String} :
      CrawlReach env bd L start c disc proc (url :: pending) →
      CrawlReach env bd L start (crawlStep env bd (c, disc, proc) url).1
        (crawlStep env bd (c, disc, proc) url).2.1
        (crawlStep env bd (c, disc, proc) url).2.2 pending

/-! ### `_run_browser_task` (source lines 1032–1176) and
`download_all_task_files` (source lines 1309–1497)

The remote service is an environment: per-poll statuses, the task-detail
record, the output-file endpoint body, and the artifact downloads.  The
poller's outcome is paired with the trace of endpoints requested.  The
downloader is modelled by the endpoints it contacts, in source order; which
auxiliary file URLs it fetches and which files end up on disk depend on
remote responses and local I/O and are abstracted into the environment. -/

/-- Task detail record (`GET /task/taskId`): the fields the poller reads. -/
structure TaskDetails where
  output : Option Json
  error : Option String
  result : Option Json
deriving DecidableEq, Repr

/-- Remote endpoints the client can contact. -/
inductive Ep where
  | runTask
  | statusEp (i : Nat)
  | detailsEp
  | screenshotsEp
  | gifEp
  | mediaEp
  | namedOutputEp (name : String)
  | genericOutputEp
  | fileUrl (u : String)
deriving DecidableEq, Repr

structure PollEnv where
  submitOk : Bool
  taskId : Option String
  statuses : Nat → Option String
  details : Option TaskDetails
  outputFileBody : Option String
  screenshotUrls : List String
  gifUrls : List String
  mediaUrls : List String
  namedFileUrls : String → List String
  files : List (String × String)

/-- The named output files probed by `download_all_task_files`. -/
def commonOutputFiles : List String :=
  ["review_results.json", "results.json", "output.json", "report.json",
   "data.csv", "results.csv", "output.txt", "log.txt"]

/-- Endpoints contacted by `download_all_task_files`, in source order:
screenshots, GIF, media, the named output files, then the generic
output-file endpoint (its request is issued unconditionally). -/
def downloadTrace (env : PollEnv) : List Ep :=
  [Ep.screenshotsEp] ++ env.screenshotUrls.map Ep.fileUrl ++
  [Ep.gifEp] ++ env.gifUrls.map Ep.fileUrl ++
  [Ep.mediaEp] ++ env.mediaUrls.map Ep.fileUrl ++
  (commonOutputFiles.map
    (fun n => Ep.namedOutputEp n :: (env.namedFileUrls n).map Ep.fileUrl)).flatten ++
  [Ep.genericOutputEp]

/-- The `downloaded_files` mapping as a JSON value. -/
def filesJson (files : List (String × String)) : Json :=
  .obj (files.map (fun p => (p.1, Json.str p.2)))

inductive PollErr where
  | submitFailed
  | noTaskId
  | taskFailed (msg : String)
  | timedOut
  | typeError
deriving DecidableEq, Repr

/-- A poller outcome: the returned value, plus the embedding's record of
whether this is the partial placeholder produced by the stopped-with-no-output
branch (the spec's `is-partial` bit of a JobResult). -/
structure JobResult where
  value : Json
  partialFlag : Bool
deriving DecidableEq, Repr

def maxWaitTime : Nat := 3600
def waitInterval : Nat := 15
def numPolls : Nat := maxWaitTime / waitInterval

/-- `result["downloaded_files"] = downloaded_files` when any files were
downloaded; a `TypeError` when the result is not a dict. -/
def addDownloadedFiles (files : List (String × String)) (j : Json) :
    Except PollErr Json :=
  if files.isEmpty then .ok j
  else
    match j with
    | .obj m => .ok (.obj (dset m "downloaded_files" (filesJson files)))
    | _ => .error .typeError

/-- Wrap an extracted value as a non-partial job result. -/
def jrWrap (e : Except PollErr Json) : Except PollErr JobResult :=
  e.map (fun j => ⟨j, false⟩)

/-- Inline-output extraction (source lines 1117–1134): parse a string output
as JSON, fall back to heuristic extraction; pass a structured output
through. -/
def inlineResult (env : PollEnv) (out : Json) : Except PollErr JobResult :=
  match out with
  | .str s =>
      match jsonLoads s with
      | some j => jrWrap (addDownloadedFiles env.files j)
      | none => jrWrap (addDownloadedFiles env.files (extract_json_from_text s))
  | _ => jrWrap (addDownloadedFiles env.files out)

/-- The paths taken when the detail record has no truthy inline output
(source lines 1136–1164): the output-file endpoint, then the
stopped-partial placeholder, then the generic `result` field.  The returned
trace covers the downloads and the output-file request. -/
def noInlineResult (env : PollEnv) (st : String) (td : TaskDetails) :
    Except PollErr JobResult × List Ep :=
  let tr := downloadTrace env ++ [Ep.genericOutputEp]
  match env.outputFileBody with
  | some body =>
      match jsonLoads body with
      | some j => (jrWrap (addDownloadedFiles env.files j), tr)
      | none => (jrWrap (addDownloadedFiles env.files (extract_json_from_text body)), tr)
  | none =>
      if st = "stopped" then
        let base : Jdict :=
          [("warning", .str "Task was stopped before completion"),
           ("partial_result", .bool true)]
        let v : Json :=
          if env.files.isEmpty then .obj base
          else .obj (dset base "downloaded_files" (filesJson env.files))
        (.ok ⟨v, true⟩, tr)
      else
        (jrWrap (addDownloadedFiles env.files
          (td.result.getD (.obj [("message",
            .str ("Task " ++ st ++ " but no output available"))]))), tr)

/-- Terminal-state handling: downloads, then inline output with priority,
then the no-inline paths. -/
def afterTerminal (env : PollEnv) (st : String) (td : TaskDetails) :
    Except PollErr JobResult × List Ep :=
  match td.output with
  | some out =>
      if jtruthy out then (inlineResult env out, downloadTrace env)
      else noInlineResult env st td
  | none => noInlineResult env st td

/-- `status in ["completed", "finished", "stopped"]`. -/
def isTerminalStatus (st : String) : Bool :=
  st = "completed" || st = "finished" || st = "stopped"

/-- The polling loop (source lines 1080–1176): one iteration per
`wait_interval`-second slice of the wall-clock budget; a missing status is
transient; a running-like status triggers one share-URL detail fetch;
terminal statuses extract the result; `failed` raises; budget exhaustion
raises the timeout. -/
def pollAux (env : PollEnv) :
    Nat → Nat → Bool → List Ep → Except PollErr JobResult × List Ep
  | 0, _, _, tr => (.error .timedOut, tr)
  | fuel + 1, i, shown, tr =>
      match env.statuses i with
      | none => pollAux env fuel (i + 1) shown (tr ++ [.statusEp i])
      | some st =>
          let tr1 := tr ++ [.statusEp i]
          let fetchShare := !shown && (st = "running" || st = "in_progress")
          let tr2 := if fetchShare then tr1 ++ [.detailsEp] else tr1
          let shown2 := if fetchShare then env.details.isSome else shown
          if isTerminalStatus st then
            let tr3 := tr2 ++ [.detailsEp]
            match env.details with
            | none =>
                (.ok ⟨.obj [("error",
                  .str "Could not retrieve task details after completion")], false⟩, tr3)
            | some td =>
                let p := afterTerminal env st td
                (p.1, tr3 ++ p.2)
          else if st = "failed" then
            let tr3 := tr2 ++ [.detailsEp]
            match env.details with
            | some td => (.error (.taskFailed (td.error.getD "Unknown error")), tr3)
            | none => (.error (.taskFailed "Unknown error"), tr3)
          else pollAux env fuel (i + 1) shown2 tr2

/-- `_run_browser_task`: submission, the initial detail fetch, then the
polling loop with its `max_wait_time / wait_interval` iteration budget. -/
def runBrowserTask (env : PollEnv) : Except PollErr JobResult × List Ep :=
  if !env.submitOk then (.error .submitFailed, [Ep.runTask])
  else
    match env.taskId with
    | none => (.error .noTaskId, [Ep.runTask])
    | some _ => pollAux env numPolls 0 false [Ep.runTask, Ep.detailsEp]

/-! ### The staged review loop of `_multi_step_review` (source lines
583–598) and the statistics of `_generate_overall_analysis` (source lines
836–858)

Each per-URL review job is an outcome from the environment: a returned
record (`_review_single_page` result) or a raised exception, which the loop
converts into the degraded `{url, error, scores: {overall: 0}}` entry. -/

inductive ReviewOutcome where
  | ok (r : Json)
  | exn (msg : String)
deriving DecidableEq

/-- The degraded page-review entry appended when a review job fails. -/
def failedPageReview (url msg : String) : Json :=
  .obj [("url", .str url), ("error", .str msg),
        ("scores", .obj [("overall", .num 0)])]

/-- The page-review collection loop: truthy results are appended, failures
become degraded entries. -/
def collectPageReviews (outcome : Nat → ReviewOutcome) (urls : List String) :
    List Json :=
  urls.enum.foldl (fun acc p =>
    match outcome p.1 with
    | .ok r => if jtruthy r then acc ++ [r] else acc
    | .exn e => acc ++ [failedPageReview p.2 e]) []

/-- Python `k in v` for the container checks of the statistics loop. -/
def pyIn (k : String) : Json → Except String Bool
  | .obj m => .ok (dcontains m k)
  | .str s => .ok (strContains k.data s.data)
  | .arr l => .ok (l.contains (.str k))
  | _ => .error "TypeError: argument not iterable"

/-- Python `v[k]` for a string key. -/
def pySubscript (v : Json) (k : String) : Except String Json :=
  match v with
  | .obj m =>
      match dget m k with
      | some x => .ok x
      | none => .error "KeyError"
  | _ => .error "TypeError: not subscriptable"

/-- The `scores` collection of `_generate_overall_analysis`: every
`review["scores"]["overall"]` present in the list. -/
def collectScores : List Json → Except String (List Json)
  | [] => .ok []
  | r :: rest => do
      let b ← pyIn "scores" r
      if b then
        let sc ← pySubscript r "scores"
        let b2 ← pyIn "overall" sc
        if b2 then
          let v ← pySubscript sc "overall"
          let tl ← collectScores rest
          pure (v :: tl)
        else collectScores rest
      else collectScores rest

/-- Numeric value of a JSON summand (`sum` raises on anything else). -/
def pyNumVal : Json → Except String ℚ
  | .num q => .ok q
  | .bool b => .ok (if b then 1 else 0)
  | _ => .error "TypeError: unsupported operand"

/-- Python `sum(scores)`. -/
def pySum : List Json → Except String ℚ
  | [] => .ok 0
  | v :: rest => do
      let q ← pyNumVal v
      let s ← pySum rest
      pure (q + s)

/-- `avg_score = sum(scores) / len(scores) if scores else 0`. -/
def avgScore (page_reviews : List Json) : Except String ℚ := do
  let sc ← collectScores page_reviews
  if sc.isEmpty then pure 0
  else do
    let s ← pySum sc
    pure (s / (sc.length : ℚ))

/-! ### `merge_results_with_file` (source lines 1214–1307)

The secondary source is either absent, unreadable, unparseable, or a parsed
JSON value.  The merge body runs in `Except`: any raise inside the `try`
block is caught and annotated as an `ai_file_error` on the primary record
(the raise messages are abstract but deterministic, which is what the
theorems need). -/

/-- Python `len(v)`. -/
def pyLen : Json → Except String Nat
  | .arr l => .ok l.length
  | .str s => .ok s.length
  | .obj m => .ok m.length
  | _ => .error "TypeError: object has no len"

/-- `page.get("url")`: `None` for a missing key, a raise on a non-dict. -/
def pyGetUrl : Json → Except String (Option Json)
  | .obj m => .ok (dget m "url")
  | _ => .error "AttributeError: no attribute get"

/-- `page.get("url")` over a list of pages, left to right. -/
def mapGetUrls : List Json → Except String (List (Option Json))
  | [] => .ok []
  | p :: rest => do
      let u ← pyGetUrl p
      let tl ← mapGetUrls rest
      pure (u :: tl)

/-- The set comprehension `{page.get("url") for page in v}` (as a list). -/
def pyIterUrls : Json → Except String (List (Option Json))
  | .arr l => mapGetUrls l
  | .str s => if s = "" then .ok [] else .error "AttributeError: no attribute get"
  | .obj m => if m.isEmpty then .ok [] else .error "AttributeError: no attribute get"
  | _ => .error "TypeError: not iterable"

/-- The append loop: keep, in order, the file entries whose url is not
among the existing ones (each entry's `.get` can raise). -/
def filterNewPages : List Json → List (Option Json) → Except String (List Json)
  | [], _ => .ok []
  | p :: rest, existing => do
      let u ← pyGetUrl p
      let tl ← filterNewPages rest existing
      if existing.contains u then pure tl else pure (p :: tl)

mutual

/-- Python `a > b` on JSON values: numeric comparison (bools as 0/1),
lexicographic string comparison, recursive list comparison, a `TypeError`
otherwise. -/
def pyGT : Json → Json → Except String Bool
  | .num a, .num b => .ok (decide (b < a))
  | .num a, .bool b => .ok (decide ((if b then (1 : ℚ) else 0) < a))
  | .bool a, .num b => .ok (decide (b < (if a then (1 : ℚ) else 0)))
  | .bool a, .bool b =>
      .ok (decide ((if b then (1 : ℚ) else 0) < (if a then (1 : ℚ) else 0)))
  | .str a, .str b => .ok (decide (b < a))
  | .arr a, .arr b => pyGTList a b
  | _, _ => .error "TypeError: unorderable types"

/-- Python list comparison: first unequal pair decides, else the lengths. -/
def pyGTList : List Json → List Json → Except String Bool
  | [], r => .ok (decide (r.length < 0))
  | _ :: _, [] => .ok true
  | a :: as, b :: bs => if a = b then pyGTList as bs else pyGT a b

end

/-- The page-review precedence block (source lines 1249–1263), factored by
the single read it makes of the current record: `cur` is the record's
`page_reviews` binding.  `none` means the block leaves the record alone;
`some v` means the key is set to `v` (setting a key to its current value is
a no-op on a dict). -/
def prCore (cur : Option Json) (fc : Jdict) : Except String (Option Json) :=
  match dget fc "page_reviews" with
  | some (.arr fpr) => do
      let n ← pyLen (cur.getD (.arr []))
      if n < fpr.length then pure (some (.arr fpr))
      else
        let base := cur.getD (.arr [])
        let existing ← pyIterUrls base
        let toAdd ← filterNewPages fpr existing
        if toAdd.isEmpty then pure (some base)
        else
          match base with
          | .arr l => pure (some (.arr (l ++ toAdd)))
          | _ => .error "AttributeError: no attribute append"
  | _ => pure none

def prStep (m : Jdict) (fc : Jdict) : Except String Jdict := do
  match ← prCore (dget m "page_reviews") fc with
  | some v => pure (dset m "page_reviews" v)
  | none => pure m

/-- The site-analysis block (source lines 1265–1270). -/
def saStep (m : Jdict) (fc : Jdict) : Jdict :=
  match dget fc "site_analysis" with
  | some sa =>
      let m2 := dset m "enhanced_site_analysis" sa
      if dcontains m2 "overall_review" then m2 else dset m2 "overall_review" sa
  | none => m

/-- One scalar-total block (source lines 1272–1285), factored by its reads:
`cur` is the record's binding of the key, `fv` the file's.  `some v` means
the key is updated to `v`. -/
def totalCore (cur fv : Option Json) : Except String (Option Json) :=
  match fv with
  | some v =>
      if jtruthy v then do
        let gt ← pyGT v (cur.getD (.num 0))
        pure (if gt then some v else none)
      else pure none
  | none => pure none

def totalStep (m : Jdict) (fc : Jdict) (k : String) : Except String Jdict := do
  match ← totalCore (dget m k) (dget fc k) with
  | some v => pure (dset m k v)
  | none => pure m

/-- The unrecognized-key loop (source lines 1287–1290): file keys not
already present on the record and not among the specially-handled ones are
preserved under an `ai_file_` namespace. -/
def extraStep (m : Jdict) (fc : Jdict) : Jdict :=
  fc.foldl (fun acc p =>
    if !dcontains acc p.1 && p.1 ≠ "page_reviews" && p.1 ≠ "site_analysis" then
      dset acc ("ai_file_" ++ p.1) p.2
    else acc) m

/-- The `try` body of `merge_results_with_file` once the file content is
parsed. -/
def mergeBody (results : Jdict) (j : Json) : Except String Jdict :=
  let m0 := dset results "ai_generated_file" j
  match j with
  | .obj fc => do
      let m1 ← prStep m0 fc
      let m2 := saStep m1 fc
      let m3 ← totalStep m2 fc "total_pages_reviewed"
      let m4 ← totalStep m3 fc "total_pages_discovered"
      let m5 := extraStep m4 fc
      pure (dset m5 "has_ai_generated_file" (.bool true))
  | _ => pure (dset m0 "has_ai_generated_file" (.bool true))

/-- How the secondary source presents itself: absent, parse failure, read
failure, or parsed content. -/
inductive FileSrc where
  | noFile
  | parseError (msg : String)
  | readError (msg : String)
  | content (j : Json)

/-- `merge_results_with_file`: the full merge including its exception
handlers. -/
def merge_results_with_file (results : Jdict) : FileSrc → Jdict
  | .noFile => dset results "has_ai_generated_file" (.bool false)
  | .parseError e => dset results "ai_file_error" (.str ("JSON parsing error: " ++ e))
  | .readError e => dset results "ai_file_error" (.str ("File reading error: " ++ e))
  | .content j =>
      match mergeBody results j with
      | .ok m => m
      | .error e => dset results "ai_file_error" (.str ("File reading error: " ++ e))

/-- The URL of a page-review entry (`page.get("url")` on a dict, `none`
otherwise), for stating the merge rule. -/
def jurlOpt : Json → Option Json
  | .obj m => dget m "url"
  | _ => none

/-- Modelled from the spec: the page-review merge rule as claim C6 words it
— secondary's list when strictly longer, otherwise primary's list followed
by exactly those secondary entries whose URL is not already present in
primary's list.  Used only to compare the wording with the merge. -/
def spec_merged_pages (prim sec : List Json) : List Json :=
  if prim.length < sec.length then sec
  else prim ++ sec.filter (fun p => !((prim.map jurlOpt).contains (jurlOpt p)))

/-- The secondary's page-review entries are all mappings (so URL extraction
cannot raise), whenever a page-review list is present. -/
def secPrWF (fc : Jdict) : Bool :=
  match dget fc "page_reviews" with
  | some (.arr l) => l.all Json.isObj
  | _ => true

/-- Well-formedness of a secondary source for the amended idempotence
claim: a parsed object has mapping-only page-review entries and (as for
every Python dict) duplicate-free keys. -/
def SrcWF : FileSrc → Bool
  | .content (.obj fc) => secPrWF fc && decide ((fc.map Prod.fst).Nodup)
  | _ => true

/-- One scalar-total comparison is well-typed (Python's `>` does not
raise). -/
def totalWF (cur fv : Option Json) : Bool :=
  match fv with
  | some v => !jtruthy v || (pyGT v (cur.getD (.num 0))).isOk
  | none => true

/-- Both scalar-total comparisons of the merge are well-typed. -/
def TotalsWF (results fc : Jdict) : Bool :=
  totalWF (dget results "total_pages_reviewed") (dget fc "total_pages_reviewed") &&
  totalWF (dget results "total_pages_discovered") (dget fc "total_pages_discovered")

/-! ### Concrete environments used by counterexamples and witnesses -/

/-- A link-extraction collaborator that never finds links. -/
def emptyOracle : CrawlEnv := { oracle := fun _ _ => some [] }

/-- Poll environment for the C2 scenario: statuses running, running,
completed; inline output that parses as a mapping; no artifacts. -/
def c2Env : PollEnv :=
  { submitOk := true
    taskId := some "task-1"
    statuses := fun i =>
      if i = 0 || i = 1 then some "running"
      else if i = 2 then some "completed" else none
    details := some
      { output := some (.str "\x7b\"score\": 7\x7d"), error := none, result := none }
    outputFileBody := none
    screenshotUrls := []
    gifUrls := []
    mediaUrls := []
    namedFileUrls := fun _ => []
    files := [] }

/-- Poll environment whose status endpoint never answers. -/
def timeoutEnv : PollEnv :=
  { submitOk := true
    taskId := some "task-2"
    statuses := fun _ => none
    details := none
    outputFileBody := none
    screenshotUrls := []
    gifUrls := []
    mediaUrls := []
    namedFileUrls := fun _ => []
    files := [] }

/-- Review outcomes for the C1 scenario: reviews with overall 8 and 6, the
middle job raising. -/
def c1Outcome : Nat → ReviewOutcome := fun i =>
  if i = 0 then .ok (.obj [("url", .str "https://d.com/a"),
    ("scores", .obj [("overall", .num 8)])])
  else if i = 1 then .exn "boom"
  else .ok (.obj [("url", .str "https://d.com/c"),
    ("scores", .obj [("overall", .num 6)])])

/-- A secondary file whose page-review list holds a non-mapping entry. -/
def c9BadSecondary : Json := .obj [("page_reviews", .arr [.null])]

/-- A well-formed secondary source for the C9 witness. -/
def c9GoodSecondary : Json :=
  .obj [("page_reviews", .arr [.obj [("url", .str "https://x.com/")]]),
    ("total_pages_reviewed", .num 1)]

/-- Two primary page reviews (claim C6's scenario). -/
def c6prim : List Json :=
  [.obj [("url", .str "https://d.com/a")], .obj [("url", .str "https://d.com/b")]]

/-- Five secondary page reviews overlapping the primary ones (claim C6's
scenario). -/
def c6sec : List Json :=
  [.obj [("url", .str "https://d.com/a")], .obj [("url", .str "https://d.com/b")],
    .obj [("url", .str "https://d.com/c")], .obj [("url", .str "https://d.com/d")],
    .obj [("url", .str "https://d.com/e")]]

/-- Primary record with the two C6 page reviews. -/
def c6results : Jdict := [("page_reviews", .arr c6prim)]

/-- Secondary file content with the five C6 page reviews. -/
def c6file : Jdict := [("page_reviews", .arr c6sec)]

/-- Review outcomes for the C1 witness: overall 4 and 10 around a failure. -/
def c1WitnessOutcome : Nat → ReviewOutcome := fun i =>
  if i = 0 then .ok (.obj [("url", .str "https://w.com/a"),
    ("scores", .obj [("overall", .num 4)])])
  else if i = 1 then .exn "job failed"
  else .ok (.obj [("url", .str "https://w.com/c"),
    ("scores", .obj [("overall", .num 10)])])

/-!
## Theorems

General lemmas about the dictionary embedding and the string helpers first,
then the claims.
-/

theorem dget_dset_self (d : Jdict) (k : String) (v : Json) :
    dget (dset d k v) k = some v := by
  induction d with
  | nil => simp [dset, dget, List.find?]
  | cons p rest ih =>
      by_cases h : p.1 = k
      · simp [dset, h, dget, List.find?]
      · simpa [dset, h, dget, List.find?] using ih

theorem dget_dset_ne (d : Jdict) (k k' : String) (v : Json) (h : k ≠ k') :
    dget (dset d k v) k' = dget d k' := by
  have hne : ¬(k' = k) := fun hh => h hh.symm
  induction d with
  | nil => simp [dset, dget, List.find?, h, hne]
  | cons p rest ih =>
      obtain ⟨pk, pv⟩ := p
      by_cases hp : pk = k
      · have hp' : ¬(pk = k') := by rw [hp]; exact h
        simp [dset, hp, dget, List.find?, hp', h, hne]
      · by_cases hp' : pk = k'
        · simp [dset, hp, dget, List.find?, hp', h, hne]
        · simpa [dset, hp, dget, List.find?, hp', h, hne] using ih

theorem dset_noop (d : Jdict) (k : String) (v : Json) (h : dget d k = some v) :
    dset d k v = d := by
  induction d with
  | nil => simp [dget, List.find?] at h
  | cons p rest ih =>
      obtain ⟨pk, pv⟩ := p
      by_cases hp : pk = k
      · simp [dget, List.find?, hp] at h
        simp [dset, hp, h]
      · simp [dget, List.find?, hp] at h
        simp [dset, hp, ih h]

theorem dset_dset_self (d : Jdict) (k : String) (v w : Json) :
    dset (dset d k v) k w = dset d k w := by
  induction d with
  | nil => simp [dset]
  | cons p rest ih =>
      by_cases hp : p.1 = k
      · simp [dset, hp]
      · simp [dset, hp, ih]

theorem dcontains_dset (d : Jdict) (k k' : String) (v : Json) :
    dcontains (dset d k v) k' = (decide (k = k') || dcontains d k') := by
  by_cases h : k = k'
  · subst h; simp [dcontains, dget_dset_self]
  · simp [dcontains, dget_dset_ne d k k' v h, h]

theorem dget_nil_none (k : String) : dget [] k = none := by
  simp [dget, List.find?]

theorem strContains_of_isPrefixOf {n h : List Char} (hp : n.isPrefixOf h = true) :
    strContains n h = true := by
  cases h with
  | nil =>
      cases n with
      | nil => simp [strContains]
      | cons c t => simp [List.isPrefixOf] at hp
  | cons c t => simp [strContains, hp]

theorem takeWhile_isPrefixOf (p : Char → Bool) (l : List Char) :
    (l.takeWhile p).isPrefixOf l = true := by
  induction l with
  | nil => simp [List.takeWhile, List.isPrefixOf]
  | cons c t ih =>
      by_cases h : p c
      · simp [List.takeWhile, h, List.isPrefixOf, ih]
      · simp [List.takeWhile, h, List.isPrefixOf]

/-- C10: `_extract_json_from_text` is total and always yields a mapping; on
empty input the sentinel carries the fixed placeholder `"No output"` rather
than the empty input text. -/
theorem C10_extract_json_total :
    (∀ t : String, (extract_json_from_text t).isObj = true) ∧
    extract_json_from_text "" = .obj [("raw_output", .str "No output")] := by
  refine ⟨fun t => ?_, by decide⟩
  unfold extract_json_from_text
  by_cases h : t = ""
  · simp [h, Json.isObj]
  · simp only [h, if_false]
    cases firstDictMatch (reFindallL t.data) <;> simp [Json.isObj]

/-- C4 counterexample: the filter rejects `https://a.com/guide#intro` (any
URL containing `#` is rejected) and `https://a.com/x?dl=.png` (the
extension test runs on the whole URL, query string included), although
neither URL satisfies the specification's rejection condition — so the
filter does not reject *exactly* the URLs the claim describes. -/
theorem C4_counterexample :
    is_documentation_url "https://a.com/guide#intro" = false ∧
    spec_reject_url "https://a.com/guide#intro" = false ∧
    is_documentation_url "https://a.com/x?dl=.png" = false ∧
    spec_reject_url "https://a.com/x?dl=.png" = false := by
  refine ⟨by decide, by decide, by decide, by decide⟩

/-- C4 (amended): `_is_documentation_url` rejects a URL exactly when the
lowercased full URL ends with a known non-document extension, or the
lowercased URL contains a known non-content segment, or the URL contains a
`#` anywhere (the `url.split('#')[0] in url` half of the anchor test is
vacuously true, so every fragment-bearing URL is rejected, not only pure
same-page anchors). -/
theorem C4_rejection_characterisation (u : String) :
    is_documentation_url u = false ↔
      (skip_extensions.any (fun e => e.data.isSuffixOf (strToLower u).data) = true ∨
       skip_patterns.any (fun p => strContains p.data (strToLower u).data) = true ∨
       u.data.contains '#' = true) := by
  unfold is_documentation_url
  by_cases h1 : skip_extensions.any (fun e => e.data.isSuffixOf (strToLower u).data)
  · simp [h1]
  · by_cases h2 : skip_patterns.any (fun p => strContains p.data (strToLower u).data)
    · simp [h1, h2]
    · have hvac : strContains (u.data.takeWhile (fun c => c != '#')) u.data = true :=
        strContains_of_isPrefixOf (takeWhile_isPrefixOf _ _)
      simp [h1, h2, hvac]

theorem firstDictMatch_first {pre : List (List Char)} {m : List Char}
    {post : List (List Char)} {o : List (String × Json)}
    (hpre : ∀ m' ∈ pre, ∀ o', jsonLoadsL m' ≠ some (.obj o'))
    (ho : jsonLoadsL m = some (.obj o)) :
    firstDictMatch (pre ++ m :: post) = some o := by
  induction pre with
  | nil => simp [firstDictMatch, ho]
  | cons p ps ih =>
      have hp := hpre p (by simp)
      have ih' := ih (fun m' hm' => hpre m' (by simp [hm']))
      simp only [List.cons_append, firstDictMatch]
      cases hj : jsonLoadsL p with
      | none => simpa [hj] using ih'
      | some j =>
          cases j with
          | obj o' => exact absurd hj (hp o')
          | null => simpa [hj] using ih'
          | bool b => simpa [hj] using ih'
          | num q => simpa [hj] using ih'
          | str s => simpa [hj] using ih'
          | arr l => simpa [hj] using ih'

theorem firstDictMatch_none {ms : List (List Char)}
    (h : ∀ m ∈ ms, ∀ o, jsonLoadsL m ≠ some (.obj o)) :
    firstDictMatch ms = none := by
  induction ms with
  | nil => simp [firstDictMatch]
  | cons p ps ih =>
      have hp := h p (by simp)
      have ih' := ih (fun m' hm' => h m' (by simp [hm']))
      simp only [firstDictMatch]
      cases hj : jsonLoadsL p with
      | none => simpa [hj] using ih'
      | some j =>
          cases j with
          | obj o' => exact absurd hj (hp o')
          | null => simpa [hj] using ih'
          | bool b => simpa [hj] using ih'
          | num q => simpa [hj] using ih'
          | str s => simpa [hj] using ih'
          | arr l => simpa [hj] using ih'

/-- C5 counterexample: on `" hi "` no brace-delimited substring exists, and
the sentinel carries the *stripped* text `"hi"`, not the original text
verbatim — the first-match behaviour on the example text is as claimed, but
the sentinel clause of the claim is false. -/
theorem C5_counterexample :
    extract_json_from_text "ok \x7b\"a\":1\x7d trailing \x7b\"b\":2\x7d" =
      .obj [("a", .num 1)] ∧
    reFindallL (" hi ").data = [] ∧
    extract_json_from_text " hi " = .obj [("raw_output", .str "hi")] ∧
    extract_json_from_text " hi " ≠ .obj [("raw_output", .str " hi ")] := by
  refine ⟨by decide, by decide, by decide, by decide⟩

/-- C5 (amended): extraction scans the brace-delimited substrings in order
of appearance and returns the first that parses into a mapping — on the
example text it returns the first object — and when none parses it returns
a sentinel carrying the whitespace-*stripped* input text (with the fixed
`"No output"` placeholder for empty input, per C10). -/
theorem C5_first_match_and_sentinel :
    (extract_json_from_text "ok \x7b\"a\":1\x7d trailing \x7b\"b\":2\x7d" =
      .obj [("a", .num 1)]) ∧
    (∀ (t : String) (pre : List (List Char)) (m : List Char)
        (post : List (List Char)) (o : List (String × Json)),
      t ≠ "" →
      reFindallL t.data = pre ++ m :: post →
      (∀ m' ∈ pre, ∀ o', jsonLoadsL m' ≠ some (.obj o')) →
      jsonLoadsL m = some (.obj o) →
      extract_json_from_text t = .obj o) ∧
    (∀ t : String, t ≠ "" →
      (∀ m ∈ reFindallL t.data, ∀ o, jsonLoadsL m ≠ some (.obj o)) →
      extract_json_from_text t = .obj [("raw_output", .str (pyStrip t))]) := by
  refine ⟨by decide, ?_, ?_⟩
  · intro t pre m post o ht hfind hpre ho
    unfold extract_json_from_text
    simp only [ht, if_false, hfind, firstDictMatch_first hpre ho]
  · intro t ht hnone
    unfold extract_json_from_text
    simp only [ht, if_false, firstDictMatch_none hnone]

/-- C5 witness: the first-match clause applied to a concrete text. -/
theorem C5_witness :
    extract_json_from_text "x \x7b\"k\":2\x7d y" = .obj [("k", .num 2)] := by
  refine C5_first_match_and_sentinel.2.1 "x \x7b\"k\":2\x7d y" []
    (("\x7b\"k\":2\x7d").data) [] [("k", .num 2)] (by decide) (by decide)
    (by intro m' hm'; simp at hm') (by decide)

theorem crawlLoop_stops_over_limit (env : CrawlEnv) (bd : List Char) (L : Nat)
    (fuel roundNum : Nat) (st : CrawlState) (h : L < st.2.1.length) :
    crawlLoop env bd L fuel roundNum st = st.2.1 := by
  cases fuel with
  | zero => rfl
  | succ n =>
      unfold crawlLoop
      by_cases he : (frontier st.2.1 st.2.2).isEmpty
      · simp [he]
      · simp [he, h]

theorem crawlLoop_shape (env : CrawlEnv) (bd : List Char) (L : Nat) :
    ∀ (fuel roundNum : Nat) (st : CrawlState),
      crawlLoop env bd L fuel roundNum st = st.2.1 ∨
      ∃ st' : CrawlState, st'.2.1.length ≤ L ∧
        crawlLoop env bd L fuel roundNum st = (doRound env bd st').2.1 := by
  intro fuel
  induction fuel with
  | zero => intro r st; exact .inl rfl
  | succ n ih =>
      intro r st
      by_cases he : (frontier st.2.1 st.2.2).isEmpty
      · exact .inl (by unfold crawlLoop; simp [he])
      · by_cases hl : L < st.2.1.length
        · exact .inl (by unfold crawlLoop; simp [he, hl])
        · have hle : st.2.1.length ≤ L := Nat.le_of_not_lt hl
          by_cases hr : 10 < r + 1
          · refine .inr ⟨st, hle, ?_⟩
            unfold crawlLoop; simp [he, hl, hr]
          · rcases ih (r + 1) (doRound env bd st) with heq | ⟨st', hst', heq⟩
            · refine .inr ⟨st, hle, ?_⟩
              unfold crawlLoop; simp [he, hl, hr, heq]
            · refine .inr ⟨st', hst', ?_⟩
              unfold crawlLoop; simp [he, hl, hr, heq]

/-- C3: for every safety limit and every behaviour of the link-extraction
collaborator, a loop state whose discovered set already exceeds the limit is
returned unchanged (no further round starts), and the discovered set the
phase returns is either within the limit (or just the seed) or exactly the
result of one round started from a state within the limit. -/
theorem C3_discovery_truncation (env : CrawlEnv) (start : String) (L : Nat) :
    (∀ (fuel roundNum : Nat) (st : CrawlState), L < st.2.1.length →
        crawlLoop env (netloc start).data L fuel roundNum st = st.2.1) ∧
    ((exhaustiveDiscover env start L).length ≤ max L 1 ∨
      ∃ st : CrawlState, st.2.1.length ≤ L ∧
        exhaustiveDiscover env start L = (doRound env (netloc start).data st).2.1) := by
  constructor
  · intro fuel r st h
    exact crawlLoop_stops_over_limit env (netloc start).data L fuel r st h
  · rcases crawlLoop_shape env (netloc start).data L 11 1 (0, [start], []) with heq | ⟨st', h1, h2⟩
    · left
      unfold exhaustiveDiscover
      rw [heq]
      simp [Nat.le_max_right]
    · right
      exact ⟨st', h1, h2⟩

/-- C3 witness: with the bound already exceeded, the loop returns the
discovered set unchanged. -/
theorem C3_witness :
    crawlLoop emptyOracle (netloc "https://docs.example.com/").data 0 5 1
      (0, ["https://docs.example.com/a", "https://docs.example.com/b"], []) =
      ["https://docs.example.com/a", "https://docs.example.com/b"] := by
  exact (C3_discovery_truncation emptyOracle "https://docs.example.com/" 0).1 5 1
    (0, ["https://docs.example.com/a", "https://docs.example.com/b"], []) (by decide)

theorem foldl_admit_mono (bd : List Char) (links : List String) :
    ∀ (d : List String) (x : String), x ∈ d →
      x ∈ links.foldl (fun d link =>
        if d.contains link then d
        else if strContains bd link.data && is_documentation_url link then d ++ [link]
        else d) d := by
  induction links with
  | nil => intro d x hx; simpa using hx
  | cons l ls ih =>
      intro d x hx
      simp only [List.foldl_cons]
      apply ih
      split
      · exact hx
      · split
        · exact List.mem_append_left _ hx
        · exact hx

theorem crawlStep_disc_mono (env : CrawlEnv) (bd : List Char) (st : CrawlState)
    (url : String) {x : String} (hx : x ∈ st.2.1) :
    x ∈ (crawlStep env bd st url).2.1 := by
  unfold crawlStep
  split
  · exact hx
  · split
    · exact foldl_admit_mono bd _ st.2.1 x hx
    · exact hx

theorem crawlStep_proc_sub (env : CrawlEnv) (bd : List Char) (st : CrawlState)
    (url : String) {u : String} (hu : u ∈ (crawlStep env bd st url).2.2) :
    u ∈ st.2.2 ∨ u = url := by
  unfold crawlStep at hu
  split at hu
  · exact .inl hu
  · split at hu
    · simp only [] at hu
      simpa using hu
    · simp only [] at hu
      simpa using hu

theorem crawlReach_invariant (env : CrawlEnv) (bd : List Char) (L : Nat)
    (start : String) :
    ∀ {c : Nat} {disc proc pending : List String},
      CrawlReach env bd L start c disc proc pending →
      (∀ u ∈ proc, u ∈ disc) ∧ (∀ u ∈ pending, u ∈ disc) := by
  intro c disc proc pending h
  induction h with
  | init => exact ⟨by simp, by simp⟩
  | startRound h hf hl ih =>
      refine ⟨ih.1, fun u hu => ?_⟩
      have hu2 := List.mem_of_mem_take hu
      exact List.mem_of_mem_filter hu2
  | stepUrl h ih =>
      rename_i c2 disc2 proc2 pending2 url2
      obtain ⟨ihp, ihq⟩ := ih
      constructor
      · intro u hu
        rcases crawlStep_proc_sub env bd (c2, disc2, proc2) url2 hu with h1 | h1
        · exact crawlStep_disc_mono env bd (c2, disc2, proc2) url2 (ihp u h1)
        · rw [h1]
          exact crawlStep_disc_mono env bd (c2, disc2, proc2) url2 (ihq url2 (by simp))
      · intro u hu
        exact crawlStep_disc_mono env bd (c2, disc2, proc2) url2 (ihq u (by simp [hu]))

theorem collectScores_cons_score {m s : Jdict} {q : Json}
    (hsc : dget m "scores" = some (.obj s)) (hov : dget s "overall" = some q)
    (rest : List Json) :
    collectScores (Json.obj m :: rest) =
      (collectScores rest).map (fun tl => q :: tl) := by
  cases hres : collectScores rest with
  | ok tl =>
      conv_lhs => rw [collectScores]
      simp [pyIn, pySubscript, dcontains, hsc, hov, bind, Except.bind, hres,
        Except.map, pure, Except.pure]
  | error err =>
      conv_lhs => rw [collectScores]
      simp [pyIn, pySubscript, dcontains, hsc, hov, bind, Except.bind, hres,
        Except.map]

/-- C1 counterexample: in a staged review of 3 URLs where the job for URL
2 fails, the list has 3 entries and the degraded entry carries an error and
an "overall" score of 0 — but the computed mean *includes* that zero: the
average is (8 + 0 + 6)/3 = 14/3, not the claim's (8 + 6)/2 = 7, because a
degraded entry does carry an "overall" score. -/
theorem C1_counterexample :
    collectPageReviews c1Outcome
        ["https://d.com/a", "https://d.com/b", "https://d.com/c"] =
      [.obj [("url", .str "https://d.com/a"), ("scores", .obj [("overall", .num 8)])],
       failedPageReview "https://d.com/b" "boom",
       .obj [("url", .str "https://d.com/c"), ("scores", .obj [("overall", .num 6)])]] ∧
    avgScore (collectPageReviews c1Outcome
        ["https://d.com/a", "https://d.com/b", "https://d.com/c"]) =
      .ok ((14 : ℚ) / 3) ∧
    ((14 : ℚ) / 3) ≠ (8 + 6) / 2 := by
  refine ⟨by decide, ?_, by norm_num⟩
  simp [avgScore, collectPageReviews, collectScores, c1Outcome, failedPageReview,
    pyIn, pySubscript, dcontains, dget, jtruthy, pySum, pyNumVal, List.enum,
    List.find?, bind, Except.bind, pure, Except.pure]
  norm_num

/-- C1 (amended): a staged review of 3 URLs whose second review job fails
yields a 3-entry page-review list whose second entry carries an error field
and an "overall" score of 0, and the computed average is the mean over all
entries carrying an "overall" score *with the degraded entry included as
zero* — (q1 + 0 + q3)/3; only reviews lacking an "overall" score are
excluded from the mean. -/
theorem C1_staged_failure_mean
    (u1 u2 u3 e : String) (outcome : Nat → ReviewOutcome)
    (r1 r3 s1 s3 : Jdict) (q1 q3 : ℚ)
    (h0 : outcome 0 = .ok (.obj r1)) (h1 : outcome 1 = .exn e)
    (h2 : outcome 2 = .ok (.obj r3))
    (hs1 : dget r1 "scores" = some (.obj s1)) (ho1 : dget s1 "overall" = some (.num q1))
    (hs3 : dget r3 "scores" = some (.obj s3)) (ho3 : dget s3 "overall" = some (.num q3)) :
    collectPageReviews outcome [u1, u2, u3] =
      [.obj r1, failedPageReview u2 e, .obj r3] ∧
    avgScore [.obj r1, failedPageReview u2 e, .obj r3] = .ok ((q1 + 0 + q3) / 3) := by
  have hr1 : r1 ≠ [] := by
    intro hh
    rw [hh] at hs1
    simp [dget, List.find?] at hs1
  have hr3 : r3 ≠ [] := by
    intro hh
    rw [hh] at hs3
    simp [dget, List.find?] at hs3
  have hc1 : dcontains r1 "scores" = true := by simp [dcontains, hs1]
  have hc3 : dcontains r3 "scores" = true := by simp [dcontains, hs3]
  have hc1o : dcontains s1 "overall" = true := by simp [dcontains, ho1]
  have hc3o : dcontains s3 "overall" = true := by simp [dcontains, ho3]
  constructor
  · simp [collectPageReviews, List.enum, List.enumFrom, h0, h1, h2, jtruthy, hr1, hr3]
  · have step1 := collectScores_cons_score hs1 ho1 [failedPageReview u2 e, .obj r3]
    have hfp : dget [("url", Json.str u2), ("error", Json.str e),
        ("scores", Json.obj [("overall", Json.num 0)])] "scores" =
        some (.obj [("overall", .num 0)]) := by
      simp +decide [dget, List.find?]
    have hfpo : dget [("overall", Json.num 0)] "overall" = some (Json.num 0) := by
      simp [dget, List.find?]
    have step2 := collectScores_cons_score hfp hfpo [Json.obj r3]
    have step3 := collectScores_cons_score hs3 ho3 []
    have hcs : collectScores [.obj r1, failedPageReview u2 e, .obj r3] =
        .ok [.num q1, .num 0, .num q3] := by
      rw [step1, failedPageReview, step2, step3]
      simp [collectScores, Except.map]
    have havg : avgScore [.obj r1, failedPageReview u2 e, .obj r3] =
        .ok ((q1 + (0 + (q3 + 0))) / 3) := by
      simp [avgScore, hcs, bind, Except.bind, pySum, pyNumVal, pure, Except.pure]
    rw [havg]
    norm_num

/-- C1 witness: the amended claim at a concrete staged review (scores 4 and
10 around a failed second job). -/
theorem C1_witness :
    collectPageReviews c1WitnessOutcome ["https://w.com/a", "u2", "https://w.com/c"] =
      [.obj [("url", .str "https://w.com/a"), ("scores", .obj [("overall", .num 4)])],
       failedPageReview "u2" "job failed",
       .obj [("url", .str "https://w.com/c"), ("scores", .obj [("overall", .num 10)])]] ∧
    avgScore [.obj [("url", .str "https://w.com/a"), ("scores", .obj [("overall", .num 4)])],
       failedPageReview "u2" "job failed",
       .obj [("url", .str "https://w.com/c"), ("scores", .obj [("overall", .num 10)])]] =
      .ok (((4 : ℚ) + 0 + 10) / 3) := by
  exact C1_staged_failure_mean "https://w.com/a" "u2" "https://w.com/c" "job failed"
    c1WitnessOutcome
    [("url", .str "https://w.com/a"), ("scores", .obj [("overall", .num 4)])]
    [("url", .str "https://w.com/c"), ("scores", .obj [("overall", .num 10)])]
    [("overall", .num 4)] [("overall", .num 10)] 4 10
    (by decide) (by decide) (by decide) (by decide) (by decide) (by decide) (by decide)

/-- C7: at every observation point of the discovery loop, under every
behaviour of the link-extraction collaborator, the processed set is a
subset of the discovered set. -/
theorem C7_processed_subset_discovered (env : CrawlEnv) (bd : List Char)
    (L : Nat) (start : String) {c : Nat} {disc proc pending : List String}
    (h : CrawlReach env bd L start c disc proc pending) :
    ∀ u ∈ proc, u ∈ disc :=
  (crawlReach_invariant env bd L start h).1

theorem jrWrap_flag {e : Except PollErr Json} {r : JobResult}
    (h : jrWrap e = .ok r) : r.partialFlag = false := by
  cases e with
  | ok j =>
      simp [jrWrap, Except.map] at h
      rw [← h]
  | error err => simp [jrWrap, Except.map] at h

theorem inlineResult_flag {env : PollEnv} {out : Json} {r : JobResult}
    (h : inlineResult env out = .ok r) : r.partialFlag = false := by
  unfold inlineResult at h
  cases out with
  | str s =>
      cases hj : jsonLoads s with
      | some j =>
          simp only [hj] at h
          exact jrWrap_flag h
      | none =>
          simp only [hj] at h
          exact jrWrap_flag h
  | null => exact jrWrap_flag h
  | bool b => exact jrWrap_flag h
  | num q => exact jrWrap_flag h
  | arr l => exact jrWrap_flag h
  | obj m => exact jrWrap_flag h

theorem noInlineResult_partial {env : PollEnv} {st : String} {td : TaskDetails}
    {r : JobResult} (h : (noInlineResult env st td).1 = .ok r)
    (hp : r.partialFlag = true) :
    st = "stopped" ∧ env.outputFileBody = none := by
  unfold noInlineResult at h
  cases hb : env.outputFileBody with
  | some body =>
      cases hj : jsonLoads body with
      | some j =>
          simp only [hb, hj] at h
          have := jrWrap_flag h
          rw [hp] at this
          cases this
      | none =>
          simp only [hb, hj] at h
          have := jrWrap_flag h
          rw [hp] at this
          cases this
  | none =>
      by_cases hst : st = "stopped"
      · exact ⟨hst, rfl⟩
      · simp only [hb, hst, if_false] at h
        have := jrWrap_flag h
        rw [hp] at this
        cases this

theorem afterTerminal_partial {env : PollEnv} {st : String} {td : TaskDetails}
    {r : JobResult} (h : (afterTerminal env st td).1 = .ok r)
    (hp : r.partialFlag = true) :
    st = "stopped" ∧
      (td.output = none ∨ ∃ out, td.output = some out ∧ jtruthy out = false) ∧
      env.outputFileBody = none := by
  unfold afterTerminal at h
  cases hout : td.output with
  | some out =>
      by_cases htr : jtruthy out
      · simp only [hout, htr, if_true] at h
        have := inlineResult_flag h
        rw [hp] at this
        cases this
      · simp only [hout, htr, Bool.false_eq_true, if_false] at h
        have h2 := noInlineResult_partial h hp
        exact ⟨h2.1, .inr ⟨out, rfl, by simpa using htr⟩, h2.2⟩
  | none =>
      simp only [hout] at h
      have h2 := noInlineResult_partial h hp
      exact ⟨h2.1, .inl rfl, h2.2⟩

theorem pollAux_timeout (env : PollEnv) :
    ∀ (n i : Nat) (shown : Bool) (tr : List Ep),
      (∀ j, j < n → ∀ s, env.statuses (i + j) = some s →
          s ≠ "completed" ∧ s ≠ "finished" ∧ s ≠ "stopped" ∧ s ≠ "failed") →
      (pollAux env n i shown tr).1 = .error .timedOut := by
  intro n
  induction n with
  | zero => intro i shown tr h; rfl
  | succ k ih =>
      intro i shown tr h
      have hshift : ∀ (j : Nat), j < k → ∀ s, env.statuses (i + 1 + j) = some s →
          s ≠ "completed" ∧ s ≠ "finished" ∧ s ≠ "stopped" ∧ s ≠ "failed" := by
        intro j hj s hsj
        refine h (j + 1) (by omega) s ?_
        rw [show i + (j + 1) = i + 1 + j from by omega]
        exact hsj
      rw [pollAux]
      cases hs : env.statuses i with
      | none => exact ih (i + 1) shown (tr ++ [.statusEp i]) hshift
      | some st =>
          have hst := h 0 (by omega) st (by simpa using hs)
          have hterm : isTerminalStatus st = false := by
            simp [isTerminalStatus, hst.1, hst.2.1, hst.2.2.1]
          simp only [hterm, hst.2.2.2, decide_eq_false, Bool.false_eq_true,
            if_false]
          exact ih (i + 1) _ _ hshift

theorem pollAux_fst_terminal (env : PollEnv) (k i : Nat) (shown : Bool)
    (tr : List Ep) (st : String) (hs : env.statuses i = some st)
    (hterm : isTerminalStatus st = true) :
    (pollAux env (k + 1) i shown tr).1 =
      match env.details with
      | none => .ok ⟨.obj [("error",
          .str "Could not retrieve task details after completion")], false⟩
      | some td => (afterTerminal env st td).1 := by
  rw [pollAux, hs]
  cases env.details <;> simp [hterm]

theorem pollAux_continue (env : PollEnv) (k i : Nat) (shown : Bool)
    (tr : List Ep) (st : String) (hs : env.statuses i = some st)
    (hterm : isTerminalStatus st = false) (hf : st ≠ "failed") :
    ∃ (shown2 : Bool) (tr2 : List Ep),
      pollAux env (k + 1) i shown tr = pollAux env k (i + 1) shown2 tr2 := by
  refine ⟨(if !shown && (st = "running" || st = "in_progress") then
      env.details.isSome else shown),
    (if !shown && (st = "running" || st = "in_progress") then
      (tr ++ [Ep.statusEp i]) ++ [Ep.detailsEp] else tr ++ [Ep.statusEp i]), ?_⟩
  rw [pollAux, hs]
  simp only [hterm, hf, Bool.false_eq_true, if_false, decide_eq_false]

theorem pollAux_fst_failed (env : PollEnv) (k i : Nat) (shown : Bool)
    (tr : List Ep) (st : String) (hs : env.statuses i = some st)
    (_hterm : isTerminalStatus st = false) (hf : st = "failed") :
    ∃ msg, (pollAux env (k + 1) i shown tr).1 = .error (.taskFailed msg) := by
  rw [pollAux, hs]
  cases env.details <;>
    simp [hf, show isTerminalStatus "failed" = false from by decide]

theorem pollAux_partial (env : PollEnv) :
    ∀ (n i : Nat) (shown : Bool) (tr : List Ep) (r : JobResult),
      (pollAux env n i shown tr).1 = .ok r → r.partialFlag = true →
      ∃ j, i ≤ j ∧ j < i + n ∧ env.statuses j = some "stopped" ∧
        (∃ td, env.details = some td ∧
          (td.output = none ∨ ∃ out, td.output = some out ∧ jtruthy out = false)) ∧
        env.outputFileBody = none := by
  intro n
  induction n with
  | zero =>
      intro i shown tr r h hp
      simp [pollAux] at h
  | succ k ih =>
      intro i shown tr r h hp
      cases hs : env.statuses i with
      | none =>
          rw [pollAux, hs] at h
          obtain ⟨j, hj1, hj2, rest⟩ := ih (i + 1) shown _ r h hp
          exact ⟨j, by omega, by omega, rest⟩
      | some st =>
          by_cases hterm : isTerminalStatus st = true
          · rw [pollAux_fst_terminal env k i shown tr st hs hterm] at h
            cases hd : env.details with
            | none =>
                rw [hd] at h
                simp only [Except.ok.injEq] at h
                rw [← h] at hp
                cases hp
            | some td =>
                rw [hd] at h
                have h3 := afterTerminal_partial h hp
                refine ⟨i, le_refl i, by omega, ?_, ⟨td, rfl, h3.2.1⟩, h3.2.2⟩
                rw [hs, h3.1]
          · have hterm' : isTerminalStatus st = false := by
              simpa using hterm
            by_cases hf : st = "failed"
            · obtain ⟨msg, hmsg⟩ := pollAux_fst_failed env k i shown tr st hs hterm' hf
              rw [hmsg] at h
              cases h
            · obtain ⟨shown2, tr2, heq⟩ :=
                pollAux_continue env k i shown tr st hs hterm' hf
              rw [heq] at h
              obtain ⟨j, hj1, hj2, rest⟩ := ih (i + 1) shown2 tr2 r h hp
              exact ⟨j, by omega, by omega, rest⟩

/-- C8: if no polling-ending status (`completed`, `finished`, `stopped`; the
separately-specified `failed` also ends polling) is observed within the
wall-clock budget, `_run_browser_task` raises the timeout — no result, and
in particular no partial result, is returned on that path; and a
partial-flagged result is returned only when an explicit `stopped` status
was observed with no truthy inline output and no retrievable output file. -/
theorem C8_timeout_and_partial_only_on_stopped (env : PollEnv) :
    ((env.submitOk = true) → (∃ tid, env.taskId = some tid) →
      (∀ i, i < numPolls → ∀ s, env.statuses i = some s →
        s ≠ "completed" ∧ s ≠ "finished" ∧ s ≠ "stopped" ∧ s ≠ "failed") →
      (runBrowserTask env).1 = .error .timedOut) ∧
    (∀ r : JobResult, (runBrowserTask env).1 = .ok r → r.partialFlag = true →
      ∃ i, i < numPolls ∧ env.statuses i = some "stopped" ∧
        (∃ td, env.details = some td ∧
          (td.output = none ∨ ∃ out, td.output = some out ∧ jtruthy out = false)) ∧
        env.outputFileBody = none) := by
  constructor
  · intro hsub ⟨tid, hid⟩ hst
    unfold runBrowserTask
    rw [hsub, hid]
    simp only [Bool.not_true, Bool.false_eq_true, if_false]
    refine pollAux_timeout env numPolls 0 false _ (fun j hj s hsj => ?_)
    exact hst j (by omega) s (by simpa using hsj)
  · intro r h hp
    unfold runBrowserTask at h
    by_cases hsub : env.submitOk
    · cases hid : env.taskId with
      | none =>
          rw [hsub, hid] at h
          simp at h
      | some tid =>
          rw [hsub, hid] at h
          simp only [Bool.not_true, Bool.false_eq_true, if_false] at h
          obtain ⟨j, hj0, hj1, rest⟩ := pollAux_partial env numPolls 0 false _ r h hp
          exact ⟨j, by omega, rest⟩
    · have hsub' : env.submitOk = false := by simpa using hsub
      rw [hsub'] at h
      simp at h

/-- C8 witness: a job whose status endpoint never answers within the budget
times out. -/
theorem C8_witness : (runBrowserTask timeoutEnv).1 = .error .timedOut := by
  refine (C8_timeout_and_partial_only_on_stopped timeoutEnv).1 rfl ⟨"task-2", rfl⟩ ?_
  intro i hi s hsj
  cases hsj

theorem inlineResult_parsed {env : PollEnv} {s : String} {m : Jdict}
    (hparse : jsonLoads s = some (.obj m)) :
    inlineResult env (.str s) = .ok ⟨(if env.files.isEmpty then Json.obj m
      else .obj (dset m "downloaded_files" (filesJson env.files))), false⟩ := by
  unfold inlineResult
  simp only [hparse]
  unfold addDownloadedFiles jrWrap
  by_cases hf : env.files.isEmpty <;> simp [hf, Except.map]

theorem count_genericOutput_map_fileUrl (l : List String) :
    (l.map Ep.fileUrl).count Ep.genericOutputEp = 0 := by
  simp [List.count_eq_zero, List.mem_map]

theorem downloadTrace_generic_count (env : PollEnv) :
    (downloadTrace env).count Ep.genericOutputEp = 1 := by
  unfold downloadTrace
  simp [List.count_append, count_genericOutput_map_fileUrl, commonOutputFiles,
    List.count_cons]

/-- C2 counterexample: in the `[running, running, completed]` scenario with
parseable truthy inline output, the poller does return the parsed output as
a non-partial JobResult — but a request to the output-file retrieval
endpoint *is* issued, by the unconditional best-effort artifact download
step, so the claim's "without ever issuing a request to the output-file
retrieval endpoint" clause is false. -/
theorem C2_counterexample :
    c2Env.statuses 0 = some "running" ∧ c2Env.statuses 1 = some "running" ∧
    c2Env.statuses 2 = some "completed" ∧
    (runBrowserTask c2Env).1 = .ok ⟨.obj [("score", .num 7)], false⟩ ∧
    (runBrowserTask c2Env).2.count Ep.genericOutputEp ≠ 0 := by
  refine ⟨by decide, by decide, by decide, by decide, by decide⟩

/-- C2 (amended): for every job polled `[running, running, completed]`
whose detail record carries a truthy inline string output that parses as a
mapping, the poller returns that mapping (augmented with the
downloaded-files key when artifacts were downloaded) as a non-partial
JobResult, and exactly one request to the output-file retrieval endpoint is
issued — by the best-effort artifact downloader, none by the extraction
logic itself. -/
theorem C2_inline_output_no_extraction_fetch (env : PollEnv) (td : TaskDetails)
    (s : String) (m : Jdict) (tid : String)
    (hsub : env.submitOk = true) (hid : env.taskId = some tid)
    (h0 : env.statuses 0 = some "running") (h1 : env.statuses 1 = some "running")
    (h2 : env.statuses 2 = some "completed")
    (hd : env.details = some td) (hout : td.output = some (.str s))
    (hne : s ≠ "") (hparse : jsonLoads s = some (.obj m)) :
    (runBrowserTask env).1 = .ok ⟨(if env.files.isEmpty then Json.obj m
        else .obj (dset m "downloaded_files" (filesJson env.files))), false⟩ ∧
    (runBrowserTask env).2.count Ep.genericOutputEp = 1 := by
  have hrun : runBrowserTask env =
      pollAux env numPolls 0 false [Ep.runTask, Ep.detailsEp] := by
    unfold runBrowserTask
    rw [hsub, hid]
    rfl
  have e0 : pollAux env (239 + 1) 0 false [Ep.runTask, Ep.detailsEp] =
      pollAux env 239 1 true
        [Ep.runTask, Ep.detailsEp, Ep.statusEp 0, Ep.detailsEp] := by
    rw [pollAux, h0]
    simp [show isTerminalStatus "running" = false from by decide, hd]
  have e1 : pollAux env (238 + 1) 1 true
      [Ep.runTask, Ep.detailsEp, Ep.statusEp 0, Ep.detailsEp] =
      pollAux env 238 2 true
        [Ep.runTask, Ep.detailsEp, Ep.statusEp 0, Ep.detailsEp, Ep.statusEp 1] := by
    rw [pollAux, h1]
    simp [show isTerminalStatus "running" = false from by decide]
  have eat : afterTerminal env "completed" td =
      (inlineResult env (.str s), downloadTrace env) := by
    unfold afterTerminal
    rw [hout]
    simp [jtruthy, hne]
  have e2 : pollAux env (237 + 1) 2 true
      [Ep.runTask, Ep.detailsEp, Ep.statusEp 0, Ep.detailsEp, Ep.statusEp 1] =
      (inlineResult env (.str s),
        [Ep.runTask, Ep.detailsEp, Ep.statusEp 0, Ep.detailsEp, Ep.statusEp 1,
         Ep.statusEp 2, Ep.detailsEp] ++ downloadTrace env) := by
    rw [pollAux, h2]
    simp [show isTerminalStatus "completed" = true from by decide, hd, eat]
  have efinal : runBrowserTask env =
      (inlineResult env (.str s),
        [Ep.runTask, Ep.detailsEp, Ep.statusEp 0, Ep.detailsEp, Ep.statusEp 1,
         Ep.statusEp 2, Ep.detailsEp] ++ downloadTrace env) := by
    rw [hrun, show numPolls = 239 + 1 from rfl, e0,
      show (239 : Nat) = 238 + 1 from rfl, e1,
      show (238 : Nat) = 237 + 1 from rfl, e2]
  constructor
  · rw [efinal]
    exact inlineResult_parsed hparse
  · rw [efinal]
    simp [List.count_append, downloadTrace_generic_count]

/-- C2 witness for the amended claim: the concrete scenario environment. -/
theorem C2_witness :
    (runBrowserTask c2Env).1 = .ok ⟨(if c2Env.files.isEmpty
        then Json.obj [("score", .num 7)]
        else .obj (dset [("score", .num 7)] "downloaded_files" (filesJson c2Env.files))),
      false⟩ ∧
    (runBrowserTask c2Env).2.count Ep.genericOutputEp = 1 := by
  refine C2_inline_output_no_extraction_fetch c2Env
    { output := some (.str "\x7b\"score\": 7\x7d"), error := none, result := none }
    "\x7b\"score\": 7\x7d" [("score", .num 7)] "task-1"
    rfl rfl rfl rfl rfl rfl rfl (by decide) (by decide)

theorem ai_file_prefix_data (k : String) :
    ("ai_file_" ++ k).data =
      'a' :: 'i' :: '_' :: 'f' :: 'i' :: 'l' :: 'e' :: '_' :: k.data := rfl

theorem ai_file_ne_of_head (k n : String) (hn : n.data.take 4 ≠ ['a', 'i', '_', 'f']) :
    "ai_file_" ++ k ≠ n := by
  intro h
  apply hn
  rw [← h, ai_file_prefix_data]
  rfl

theorem ai_file_inj {k k' : String} (h : "ai_file_" ++ k = "ai_file_" ++ k') :
    k = k' := by
  have hd := congrArg String.data h
  rw [ai_file_prefix_data, ai_file_prefix_data] at hd
  simp only [List.cons.injEq, true_and] at hd
  cases k
  cases k'
  exact congrArg String.mk (by simpa using hd)

theorem dcontains_mono_dset {d : Jdict} {n : String} (k : String) (v : Json)
    (h : dcontains d n = true) : dcontains (dset d k v) n = true := by
  rw [dcontains_dset]
  simp [h]

theorem extraStep_cons (m : Jdict) (p : String × Json) (rest : Jdict) :
    extraStep m (p :: rest) =
      extraStep (if !dcontains m p.1 && p.1 ≠ "page_reviews" && p.1 ≠ "site_analysis"
        then dset m ("ai_file_" ++ p.1) p.2 else m) rest := by
  unfold extraStep
  simp [List.foldl_cons]

theorem extraStep_dget_preserved (fc : Jdict) :
    ∀ (m : Jdict) (n : String),
      (∀ p ∈ fc, "ai_file_" ++ p.1 ≠ n) →
      dget (extraStep m fc) n = dget m n := by
  induction fc with
  | nil => intro m n _; rfl
  | cons p rest ih =>
      intro m n hn
      rw [extraStep_cons, ih _ n (fun q hq => hn q (by simp [hq]))]
      split
      · exact dget_dset_ne m _ n p.2 (hn p (by simp))
      · rfl

theorem extraStep_dcontains_mono (fc : Jdict) :
    ∀ (m : Jdict) (n : String), dcontains m n = true →
      dcontains (extraStep m fc) n = true := by
  induction fc with
  | nil => intro m n h; exact h
  | cons p rest ih =>
      intro m n h
      rw [extraStep_cons]
      refine ih _ n ?_
      split
      · exact dcontains_mono_dset _ _ h
      · exact h

theorem pyGTList_self (l : List Json) : pyGTList l l = .ok false := by
  induction l with
  | nil => simp [pyGTList]
  | cons a as ih => simp [pyGTList, ih]

theorem pyGT_self {v w : Json} {b : Bool} (h : pyGT v w = .ok b) :
    pyGT v v = .ok false := by
  cases v with
  | num q => simp [pyGT, lt_irrefl]
  | bool bb => cases bb <;> simp [pyGT]
  | str s =>
      have hirr : ¬(s < s) := lt_irrefl s
      simp [pyGT, hirr]
  | arr l => simp [pyGT, pyGTList_self]
  | null =>
      exfalso
      cases w <;> simp [pyGT] at h
  | obj m =>
      exfalso
      cases w <;> simp [pyGT] at h

theorem jurlOpt_of_isObj {p : Json} (h : p.isObj = true) :
    pyGetUrl p = .ok (jurlOpt p) := by
  cases p <;> simp [Json.isObj] at h ⊢
  simp [pyGetUrl, jurlOpt]

theorem pyIterUrls_arr {l : List Json} (hobj : l.all Json.isObj = true) :
    pyIterUrls (.arr l) = .ok (l.map jurlOpt) := by
  show mapGetUrls l = .ok (l.map jurlOpt)
  induction l with
  | nil => rfl
  | cons p rest ih =>
      simp only [List.all_cons, Bool.and_eq_true] at hobj
      simp [mapGetUrls, jurlOpt_of_isObj hobj.1, ih hobj.2, bind, Except.bind,
        pure, Except.pure]

theorem pyIterUrls_arr_inv {l : List Json} {ex : List (Option Json)}
    (h : pyIterUrls (.arr l) = .ok ex) :
    l.all Json.isObj = true ∧ ex = l.map jurlOpt := by
  induction l generalizing ex with
  | nil =>
      refine ⟨rfl, ?_⟩
      have : (Except.ok [] : Except String (List (Option Json))) = .ok ex := h
      simpa using this.symm
  | cons p rest ih =>
      have h' : mapGetUrls (p :: rest) = .ok ex := h
      simp only [mapGetUrls, bind, Except.bind, pure, Except.pure] at h'
      cases hg : pyGetUrl p with
      | error e => rw [hg] at h'; cases h'
      | ok u =>
          rw [hg] at h'
          cases hrest : mapGetUrls rest with
          | error e => rw [hrest] at h'; cases h'
          | ok tl =>
              rw [hrest] at h'
              simp only [Except.ok.injEq] at h'
              obtain ⟨ho, he⟩ := ih hrest
              have hpo : p.isObj = true ∧ u = jurlOpt p := by
                cases p <;> simp [pyGetUrl, Json.isObj, jurlOpt] at hg ⊢
                exact hg.symm
              simp [List.all_cons, hpo.1, ho, ← h', hpo.2, he]

theorem filterNewPages_all_obj {l : List Json} (hobj : l.all Json.isObj = true)
    (ex : List (Option Json)) :
    filterNewPages l ex = .ok (l.filter (fun p => !(ex.contains (jurlOpt p)))) := by
  induction l with
  | nil => rfl
  | cons p rest ih =>
      simp only [List.all_cons, Bool.and_eq_true] at hobj
      have ih' := ih hobj.2
      simp only [filterNewPages, jurlOpt_of_isObj hobj.1, ih', bind, Except.bind,
        pure, Except.pure, List.filter_cons]
      by_cases hc : jurlOpt p ∈ ex <;> simp [hc]

theorem prCore_wf {cur : Option Json} {prim sec : List Json} {fc : Jdict}
    (hcur : cur.getD (.arr []) = .arr prim) (hpo : prim.all Json.isObj = true)
    (hsec : dget fc "page_reviews" = some (.arr sec))
    (hso : sec.all Json.isObj = true) :
    prCore cur fc = .ok (some (.arr (spec_merged_pages prim sec))) := by
  unfold prCore
  rw [hsec]
  simp only [hcur, pyLen, bind, Except.bind]
  by_cases hlt : prim.length < sec.length
  · simp [hlt, spec_merged_pages, pure, Except.pure]
  · simp only [hlt, if_false, pyIterUrls_arr hpo,
      filterNewPages_all_obj hso (prim.map jurlOpt)]
    by_cases he : (sec.filter (fun p => !((prim.map jurlOpt).contains (jurlOpt p)))).isEmpty
    · have he' := List.isEmpty_iff.mp he
      simp [he, spec_merged_pages, hlt, he', pure, Except.pure]
    · simp [he, spec_merged_pages, hlt, pure, Except.pure]

theorem filter_not_own_urls (sec : List Json) (us : List (Option Json))
    (hsub : ∀ p ∈ sec, jurlOpt p ∈ us) :
    sec.filter (fun p => !(us.contains (jurlOpt p))) = [] := by
  rw [List.filter_eq_nil_iff]
  intro a ha
  simp [hsub a ha]

theorem prCore_idem {cur : Option Json} {fc : Jdict} {sec : List Json} {v : Json}
    (hsec : dget fc "page_reviews" = some (.arr sec))
    (hso : sec.all Json.isObj = true)
    (h : prCore cur fc = .ok (some v)) :
    prCore (some v) fc = .ok (some v) := by
  unfold prCore at h ⊢
  rw [hsec] at h ⊢
  simp only [bind, Except.bind] at h
  cases hl : pyLen (cur.getD (.arr [])) with
  | error e => rw [hl] at h; cases h
  | ok n =>
      rw [hl] at h
      by_cases hlt : n < sec.length
      · simp only [hlt, if_true, pure, Except.pure, Except.ok.injEq,
          Option.some.injEq] at h
        subst h
        simp only [Option.getD_some, pyLen, bind, Except.bind,
          Nat.lt_irrefl, if_false, pyIterUrls_arr hso,
          filterNewPages_all_obj hso (sec.map jurlOpt)]
        have hfil : sec.filter (fun p => !((sec.map jurlOpt).contains (jurlOpt p))) = [] :=
          filter_not_own_urls sec _ (fun p hp => List.mem_map.mpr ⟨p, hp, rfl⟩)
        rw [hfil]
        simp [pure, Except.pure]
      · simp only [hlt, if_false] at h
        cases hex : pyIterUrls (cur.getD (.arr [])) with
        | error e => rw [hex] at h; cases h
        | ok ex =>
            simp only [hex, filterNewPages_all_obj hso ex] at h
            by_cases hta :
                (sec.filter (fun p => !(ex.contains (jurlOpt p)))).isEmpty
            · simp only [hta, if_true, pure, Except.pure, Except.ok.injEq,
                Option.some.injEq] at h
              subst h
              simp only [Option.getD_some, hl, bind, Except.bind, hlt, if_false,
                hex, filterNewPages_all_obj hso ex, hta, pure, Except.pure]
              simp
            · simp only [hta, Bool.false_eq_true, if_false] at h
              cases hbase : cur.getD (.arr []) with
              | arr l =>
                  rw [hbase] at h
                  simp only [pure, Except.pure, Except.ok.injEq,
                    Option.some.injEq] at h
                  subst h
                  have hn : n = l.length := by
                    rw [hbase] at hl
                    simpa [pyLen] using hl.symm
                  have hinv : l.all Json.isObj = true ∧ ex = l.map jurlOpt := by
                    refine pyIterUrls_arr_inv ?_
                    rw [← hbase]
                    exact hex
                  set ta := sec.filter (fun p => !(ex.contains (jurlOpt p))) with hta_def
                  have hta_obj : ta.all Json.isObj = true := by
                    rw [List.all_eq_true] at hso ⊢
                    intro p hp
                    exact hso p (List.mem_of_mem_filter hp)
                  have hall : (l ++ ta).all Json.isObj = true := by
                    rw [List.all_append, hinv.1, hta_obj]
                    rfl
                  simp only [Option.getD_some, pyLen, bind, Except.bind]
                  have hlen : ¬ ((l ++ ta).length < sec.length) := by
                    have : sec.length ≤ n := Nat.le_of_not_lt hlt
                    simp only [List.length_append]
                    omega
                  simp only [hlen, if_false, pyIterUrls_arr hall,
                    filterNewPages_all_obj hso ((l ++ ta).map jurlOpt)]
                  have hfil : sec.filter
                      (fun p => !(((l ++ ta).map jurlOpt).contains (jurlOpt p))) = [] := by
                    refine filter_not_own_urls sec _ (fun p hp => ?_)
                    rw [List.map_append]
                    by_cases hmem : ex.contains (jurlOpt p)
                    · refine List.mem_append_left _ ?_
                      rw [← hinv.2]
                      simpa using hmem
                    · refine List.mem_append_right _ ?_
                      refine List.mem_map.mpr ⟨p, ?_, rfl⟩
                      rw [hta_def]
                      rw [List.mem_filter]
                      exact ⟨hp, by simpa using hmem⟩
                  rw [hfil]
                  simp [pure, Except.pure]
              | null => rw [hbase] at h; cases h
              | bool b => rw [hbase] at h; cases h
              | num q => rw [hbase] at h; cases h
              | str s => rw [hbase] at h; cases h
              | obj o => rw [hbase] at h; cases h

theorem prStep_core_err {m fc : Jdict} {e : String}
    (h : prCore (dget m "page_reviews") fc = .error e) :
    prStep m fc = .error e := by
  unfold prStep
  simp [h, bind, Except.bind]

theorem prStep_core_some {m fc : Jdict} {v : Json}
    (h : prCore (dget m "page_reviews") fc = .ok (some v)) :
    prStep m fc = .ok (dset m "page_reviews" v) := by
  unfold prStep
  simp [h, bind, Except.bind, pure, Except.pure]

theorem prStep_core_none {m fc : Jdict}
    (h : prCore (dget m "page_reviews") fc = .ok none) :
    prStep m fc = .ok m := by
  unfold prStep
  simp [h, bind, Except.bind, pure, Except.pure]

theorem prStep_cases {m fc m' : Jdict} (h : prStep m fc = .ok m') :
    (prCore (dget m "page_reviews") fc = .ok none ∧ m' = m) ∨
    (∃ v, prCore (dget m "page_reviews") fc = .ok (some v) ∧
      m' = dset m "page_reviews" v) := by
  unfold prStep at h
  cases hc : prCore (dget m "page_reviews") fc with
  | error e => simp [hc, bind, Except.bind] at h
  | ok r =>
      cases r with
      | none =>
          simp [hc, bind, Except.bind, pure, Except.pure] at h
          exact .inl ⟨rfl, h.symm⟩
      | some v =>
          simp [hc, bind, Except.bind, pure, Except.pure] at h
          exact .inr ⟨v, rfl, h.symm⟩

theorem totalStep_core_err {m fc : Jdict} {k : String} {e : String}
    (h : totalCore (dget m k) (dget fc k) = .error e) :
    totalStep m fc k = .error e := by
  unfold totalStep
  simp [h, bind, Except.bind]

theorem totalStep_cases {m fc m' : Jdict} {k : String}
    (h : totalStep m fc k = .ok m') :
    (totalCore (dget m k) (dget fc k) = .ok none ∧ m' = m) ∨
    (∃ v, totalCore (dget m k) (dget fc k) = .ok (some v) ∧ m' = dset m k v) := by
  unfold totalStep at h
  cases hc : totalCore (dget m k) (dget fc k) with
  | error e => simp [hc, bind, Except.bind] at h
  | ok r =>
      cases r with
      | none =>
          simp [hc, bind, Except.bind, pure, Except.pure] at h
          exact .inl ⟨rfl, h.symm⟩
      | some v =>
          simp [hc, bind, Except.bind, pure, Except.pure] at h
          exact .inr ⟨v, rfl, h.symm⟩

theorem totalStep_core_some {m fc : Jdict} {k : String} {v : Json}
    (h : totalCore (dget m k) (dget fc k) = .ok (some v)) :
    totalStep m fc k = .ok (dset m k v) := by
  unfold totalStep
  simp [h, bind, Except.bind, pure, Except.pure]

theorem totalStep_core_none {m fc : Jdict} {k : String}
    (h : totalCore (dget m k) (dget fc k) = .ok none) :
    totalStep m fc k = .ok m := by
  unfold totalStep
  simp [h, bind, Except.bind, pure, Except.pure]

theorem totalCore_idem {cur fv : Option Json} {v : Json}
    (h : totalCore cur fv = .ok (some v)) :
    totalCore (some v) fv = .ok none := by
  unfold totalCore at h ⊢
  cases fv with
  | none => simp [pure, Except.pure] at h
  | some w =>
      by_cases htr : jtruthy w
      · simp only [htr, if_true, bind, Except.bind] at h ⊢
        cases hg : pyGT w (cur.getD (.num 0)) with
        | error e => rw [hg] at h; cases h
        | ok b =>
            rw [hg] at h
            cases b with
            | false => simp [pure, Except.pure] at h
            | true =>
                simp only [pure, Except.pure, Except.ok.injEq,
                  Option.some.injEq, if_true] at h
                subst h
                rw [show (some w).getD (.num 0) = w from rfl, pyGT_self hg]
                simp [pure, Except.pure]
      · simp [htr, pure, Except.pure] at h

theorem saStep_dget_ne {m fc : Jdict} {n : String}
    (h4 : n ≠ "enhanced_site_analysis") (h5 : n ≠ "overall_review") :
    dget (saStep m fc) n = dget m n := by
  unfold saStep
  cases dget fc "site_analysis" with
  | none => rfl
  | some sa =>
      by_cases hc : dcontains (dset m "enhanced_site_analysis" sa) "overall_review"
      · simp only [hc, if_true]
        exact dget_dset_ne m _ n sa (fun hh => h4 hh.symm)
      · simp only [hc, Bool.false_eq_true, if_false]
        rw [dget_dset_ne _ _ n sa (fun hh => h5 hh.symm)]
        exact dget_dset_ne m _ n sa (fun hh => h4 hh.symm)

theorem saStep_dcontains_mono {m fc : Jdict} {n : String}
    (h : dcontains m n = true) : dcontains (saStep m fc) n = true := by
  unfold saStep
  cases dget fc "site_analysis" with
  | none => exact h
  | some sa =>
      by_cases hc : dcontains (dset m "enhanced_site_analysis" sa) "overall_review"
      · simp only [hc, if_true]
        exact dcontains_mono_dset _ _ h
      · simp only [hc, Bool.false_eq_true, if_false]
        exact dcontains_mono_dset _ _ (dcontains_mono_dset _ _ h)

theorem saStep_sets {m fc : Jdict} {sa : Json}
    (h : dget fc "site_analysis" = some sa) :
    dget (saStep m fc) "enhanced_site_analysis" = some sa ∧
    dcontains (saStep m fc) "overall_review" = true := by
  unfold saStep
  rw [h]
  by_cases hc : dcontains (dset m "enhanced_site_analysis" sa) "overall_review"
  · simp only [hc, if_true]
    exact ⟨dget_dset_self m _ sa, by trivial⟩
  · simp only [hc, Bool.false_eq_true, if_false]
    constructor
    · rw [dget_dset_ne _ _ _ sa (by decide)]
      exact dget_dset_self m _ sa
    · rw [dcontains_dset]
      simp

theorem saStep_noop {m fc : Jdict}
    (h : ∀ sa, dget fc "site_analysis" = some sa →
      dget m "enhanced_site_analysis" = some sa ∧
      dcontains m "overall_review" = true) :
    saStep m fc = m := by
  unfold saStep
  cases hsa : dget fc "site_analysis" with
  | none => rfl
  | some sa =>
      obtain ⟨h1, h2⟩ := h sa hsa
      simp only [dset_noop m _ sa h1, h2, if_true]

theorem mergeBody_obj (results fc : Jdict) :
    mergeBody results (.obj fc) =
      Except.bind (prStep (dset results "ai_generated_file" (.obj fc)) fc)
        (fun m1 => Except.bind (totalStep (saStep m1 fc) fc "total_pages_reviewed")
          (fun m3 => Except.bind (totalStep m3 fc "total_pages_discovered")
            (fun m4 => Except.ok
              (dset (extraStep m4 fc) "has_ai_generated_file" (.bool true))))) := rfl

theorem prStep_dget_ne {m fc m' : Jdict} (h : prStep m fc = .ok m') {n : String}
    (hn : n ≠ "page_reviews") : dget m' n = dget m n := by
  rcases prStep_cases h with ⟨_, rfl⟩ | ⟨v, _, rfl⟩
  · rfl
  · exact dget_dset_ne m _ n v (Ne.symm hn)

theorem totalStep_dget_ne {m fc m' : Jdict} {k : String}
    (h : totalStep m fc k = .ok m') {n : String} (hn : n ≠ k) :
    dget m' n = dget m n := by
  rcases totalStep_cases h with ⟨_, rfl⟩ | ⟨v, _, rfl⟩
  · rfl
  · exact dget_dset_ne m _ n v (Ne.symm hn)

theorem totalStep_dcontains_mono {m fc m' : Jdict} {k : String}
    (h : totalStep m fc k = .ok m') {n : String} (hc : dcontains m n = true) :
    dcontains m' n = true := by
  rcases totalStep_cases h with ⟨_, rfl⟩ | ⟨v, _, rfl⟩
  · exact hc
  · exact dcontains_mono_dset k v hc

theorem prCore_no_arr {cur : Option Json} {fc : Jdict}
    (h : ∀ l, dget fc "page_reviews" ≠ some (.arr l)) :
    prCore cur fc = .ok none := by
  unfold prCore
  cases hd : dget fc "page_reviews" with
  | none => rfl
  | some j =>
      cases j with
      | arr l => exact absurd hd (h l)
      | null => rfl
      | bool b => rfl
      | num q => rfl
      | str s => rfl
      | obj o => rfl

theorem prCore_arr_some {cur : Option Json} {fc : Jdict} {l : List Json}
    {r : Option Json} (hfc : dget fc "page_reviews" = some (.arr l))
    (h : prCore cur fc = .ok r) : ∃ v, r = some v := by
  unfold prCore at h
  rw [hfc] at h
  simp only [bind, Except.bind] at h
  cases hn : pyLen (cur.getD (.arr [])) with
  | error e => simp only [hn] at h; exact Except.noConfusion h
  | ok n =>
      simp only [hn] at h
      by_cases hlt : n < l.length
      · rw [if_pos hlt] at h
        simp only [pure, Except.pure, Except.ok.injEq] at h
        exact ⟨_, h.symm⟩
      · rw [if_neg hlt] at h
        cases hex : pyIterUrls (cur.getD (.arr [])) with
        | error e => simp only [hex] at h; exact Except.noConfusion h
        | ok ex =>
            simp only [hex] at h
            cases hta : filterNewPages l ex with
            | error e => simp only [hta] at h; exact Except.noConfusion h
            | ok ta =>
                simp only [hta] at h
                by_cases hemp : ta.isEmpty
                · simp only [hemp, if_true, pure, Except.pure, Except.ok.injEq] at h
                  exact ⟨_, h.symm⟩
                · simp only [hemp, Bool.false_eq_true, if_false] at h
                  cases hb : cur.getD (.arr []) with
                  | arr lb =>
                      simp only [hb, pure, Except.pure, Except.ok.injEq] at h
                      exact ⟨_, h.symm⟩
                  | null => simp only [hb] at h; exact Except.noConfusion h
                  | bool b => simp only [hb] at h; exact Except.noConfusion h
                  | num q => simp only [hb] at h; exact Except.noConfusion h
                  | str s => simp only [hb] at h; exact Except.noConfusion h
                  | obj o => simp only [hb] at h; exact Except.noConfusion h

theorem totalCore_ok_of_wf {cur fv : Option Json} (h : totalWF cur fv = true) :
    ∃ r, totalCore cur fv = .ok r := by
  unfold totalWF at h
  unfold totalCore
  cases fv with
  | none => exact ⟨none, rfl⟩
  | some v =>
      by_cases htr : jtruthy v
      · simp only [htr, Bool.not_true, Bool.false_or] at h
        simp only [htr, if_true, bind, Except.bind]
        cases hg : pyGT v (cur.getD (.num 0)) with
        | error e => rw [hg] at h; simp [Except.isOk, Except.toBool] at h
        | ok b => exact ⟨if b then some v else none, by simp [pure, Except.pure]⟩
      · simp only [Bool.not_eq_true] at htr
        simp only [htr, Bool.false_eq_true, if_false]
        exact ⟨none, rfl⟩

theorem totalStep_ok_of_wf {m fc : Jdict} {k : String}
    (h : totalWF (dget m k) (dget fc k) = true) :
    ∃ m', totalStep m fc k = .ok m' ∧ ∀ n, n ≠ k → dget m' n = dget m n := by
  obtain ⟨r, hr⟩ := totalCore_ok_of_wf h
  cases r with
  | none => exact ⟨m, totalStep_core_none hr, fun n _ => rfl⟩
  | some v =>
      exact ⟨dset m k v, totalStep_core_some hr,
        fun n hn => dget_dset_ne m k n v (Ne.symm hn)⟩

theorem extraStep_noop (fc : Jdict) : ∀ m : Jdict,
    (∀ p ∈ fc, p.1 ≠ "page_reviews" → p.1 ≠ "site_analysis" →
      dcontains m p.1 = false → dget m ("ai_file_" ++ p.1) = some p.2) →
    extraStep m fc = m := by
  induction fc with
  | nil => intro m _; rfl
  | cons q rest ih =>
      intro m h
      rw [extraStep_cons]
      have hm' : (if !dcontains m q.1 && q.1 ≠ "page_reviews" && q.1 ≠ "site_analysis"
          then dset m ("ai_file_" ++ q.1) q.2 else m) = m := by
        by_cases hcond : (!dcontains m q.1 && q.1 ≠ "page_reviews" &&
            q.1 ≠ "site_analysis") = true
        · rw [if_pos hcond]
          simp only [Bool.and_eq_true, Bool.not_eq_true', decide_eq_true_eq] at hcond
          exact dset_noop m _ q.2 (h q (by simp) hcond.1.2 hcond.2 hcond.1.1)
        · rw [if_neg hcond]
      rw [hm']
      exact ih m (fun p hp => h p (by simp [hp]))

theorem extraStep_invariant (fc : Jdict) : ∀ m : Jdict,
    (fc.map Prod.fst).Nodup →
    ∀ p ∈ fc, p.1 ≠ "page_reviews" → p.1 ≠ "site_analysis" →
    dcontains (extraStep m fc) p.1 = false →
    dget (extraStep m fc) ("ai_file_" ++ p.1) = some p.2 := by
  induction fc with
  | nil => intro m _ p hp; cases hp
  | cons q rest ih =>
      intro m hnd p hp hne1 hne2 hfalse
      rw [extraStep_cons] at hfalse ⊢
      rcases List.mem_cons.mp hp with hq | hrest
      · subst hq
        by_cases hcm : dcontains m p.1 = true
        · exfalso
          have hcond : (!dcontains m p.1 && p.1 ≠ "page_reviews" &&
              p.1 ≠ "site_analysis") = false := by simp [hcm]
          simp only [hcond, Bool.false_eq_true, if_false] at hfalse
          have := extraStep_dcontains_mono rest m p.1 hcm
          rw [this] at hfalse
          exact Bool.noConfusion hfalse
        · rw [Bool.not_eq_true] at hcm
          have hcond : (!dcontains m p.1 && p.1 ≠ "page_reviews" &&
              p.1 ≠ "site_analysis") = true := by simp [hcm, hne1, hne2]
          simp only [hcond, if_true]
          have hkeys : ∀ r ∈ rest, "ai_file_" ++ r.1 ≠ "ai_file_" ++ p.1 := by
            intro r hr heq
            have hfst : r.1 = p.1 := ai_file_inj heq
            have hq_notin : p.1 ∉ rest.map Prod.fst := (List.nodup_cons.mp hnd).1
            exact hq_notin (hfst ▸ List.mem_map_of_mem Prod.fst hr)
          rw [extraStep_dget_preserved rest (dset m ("ai_file_" ++ p.1) p.2)
            ("ai_file_" ++ p.1) hkeys]
          exact dget_dset_self m _ p.2
      · exact ih _ (List.nodup_cons.mp hnd).2 p hrest hne1 hne2 hfalse

theorem mergeBody_ok_decomp {results fc out : Jdict}
    (h : mergeBody results (.obj fc) = .ok out) :
    ∃ m1 m3 m4 : Jdict,
      prStep (dset results "ai_generated_file" (.obj fc)) fc = .ok m1 ∧
      totalStep (saStep m1 fc) fc "total_pages_reviewed" = .ok m3 ∧
      totalStep m3 fc "total_pages_discovered" = .ok m4 ∧
      out = dset (extraStep m4 fc) "has_ai_generated_file" (.bool true) := by
  rw [mergeBody_obj] at h
  cases hp : prStep (dset results "ai_generated_file" (.obj fc)) fc with
  | error e => rw [hp] at h; simp [Except.bind] at h
  | ok m1 =>
      rw [hp] at h
      simp only [Except.bind] at h
      cases h3 : totalStep (saStep m1 fc) fc "total_pages_reviewed" with
      | error e => rw [h3] at h; simp [Except.bind] at h
      | ok m3 =>
          rw [h3] at h
          simp only [Except.bind] at h
          cases h4 : totalStep m3 fc "total_pages_discovered" with
          | error e => rw [h4] at h; simp [Except.bind] at h
          | ok m4 =>
              rw [h4] at h
              simp only [Except.bind] at h
              refine ⟨m1, m3, m4, rfl, h3, h4, ?_⟩
              injection h with h
              exact h.symm

theorem mergeBody_idem {results fc out : Jdict}
    (hwf : secPrWF fc = true) (hnd : (fc.map Prod.fst).Nodup)
    (h : mergeBody results (.obj fc) = .ok out) :
    mergeBody out (.obj fc) = .ok out := by
  obtain ⟨m1, m3, m4, h1, h3, h4, hout⟩ := mergeBody_ok_decomp h
  have hspineM2 : ∀ n : String, n ≠ "total_pages_reviewed" →
      n ≠ "total_pages_discovered" → n ≠ "has_ai_generated_file" →
      n.data.take 4 ≠ ['a', 'i', '_', 'f'] →
      dget out n = dget (saStep m1 fc) n := by
    intro n h6' h7' h8' hai
    rw [hout, dget_dset_ne _ _ n _ (Ne.symm h8'),
      extraStep_dget_preserved fc m4 n (fun p _ => ai_file_ne_of_head p.1 n hai),
      totalStep_dget_ne h4 h7', totalStep_dget_ne h3 h6']
  have hspine : ∀ n : String, n ≠ "enhanced_site_analysis" → n ≠ "overall_review" →
      n ≠ "total_pages_reviewed" → n ≠ "total_pages_discovered" →
      n ≠ "has_ai_generated_file" → n.data.take 4 ≠ ['a', 'i', '_', 'f'] →
      dget out n = dget m1 n := by
    intro n h4' h5' h6' h7' h8' hai
    rw [hspineM2 n h6' h7' h8' hai, saStep_dget_ne h4' h5']
  have hK1 : dget out "ai_generated_file" = some (.obj fc) := by
    rw [hspine "ai_generated_file" (by decide) (by decide) (by decide) (by decide)
        (by decide) (by decide),
      prStep_dget_ne h1 (by decide), dget_dset_self]
  have hm0 : dset out "ai_generated_file" (.obj fc) = out := dset_noop out _ _ hK1
  have hpr2 : prStep out fc = .ok out := by
    cases hfcpr : dget fc "page_reviews" with
    | none => exact prStep_core_none (prCore_no_arr (fun l hl => by simp [hfcpr] at hl))
    | some j =>
        cases j with
        | arr sec =>
            have hso : sec.all Json.isObj = true := by
              unfold secPrWF at hwf; rw [hfcpr] at hwf; exact hwf
            rcases prStep_cases h1 with ⟨hcore, _⟩ | ⟨v, hcore, hm1⟩
            · obtain ⟨v, hv⟩ := prCore_arr_some hfcpr hcore
              exact Option.noConfusion hv
            · have hK2 : dget out "page_reviews" = some v := by
                rw [hspine "page_reviews" (by decide) (by decide) (by decide)
                    (by decide) (by decide) (by decide),
                  hm1, dget_dset_self]
              have hcore2 : prCore (dget out "page_reviews") fc = .ok (some v) := by
                rw [hK2]; exact prCore_idem hfcpr hso hcore
              rw [prStep_core_some hcore2, dset_noop out _ v hK2]
        | null => exact prStep_core_none (prCore_no_arr (fun l hl => by simp [hfcpr] at hl))
        | bool b => exact prStep_core_none (prCore_no_arr (fun l hl => by simp [hfcpr] at hl))
        | num q => exact prStep_core_none (prCore_no_arr (fun l hl => by simp [hfcpr] at hl))
        | str s => exact prStep_core_none (prCore_no_arr (fun l hl => by simp [hfcpr] at hl))
        | obj o => exact prStep_core_none (prCore_no_arr (fun l hl => by simp [hfcpr] at hl))
  have hsa2 : saStep out fc = out := by
    apply saStep_noop
    intro sa hsa
    obtain ⟨hs1, hs2⟩ := @saStep_sets m1 fc sa hsa
    constructor
    · rw [hspineM2 "enhanced_site_analysis" (by decide) (by decide) (by decide)
        (by decide)]
      exact hs1
    · rw [hout]
      exact dcontains_mono_dset _ _ (extraStep_dcontains_mono fc m4 _
        (totalStep_dcontains_mono h4 (totalStep_dcontains_mono h3 hs2)))
  have ht62 : totalStep out fc "total_pages_reviewed" = .ok out := by
    rcases totalStep_cases h3 with ⟨hc, hm3⟩ | ⟨v, hc, hm3⟩
    · have hr : dget out "total_pages_reviewed" =
          dget (saStep m1 fc) "total_pages_reviewed" := by
        rw [hout, dget_dset_ne _ _ _ _ (by decide),
          extraStep_dget_preserved fc m4 _
            (fun p _ => ai_file_ne_of_head p.1 _ (by decide)),
          totalStep_dget_ne h4 (by decide), hm3]
      exact totalStep_core_none (by rw [hr]; exact hc)
    · have hr : dget out "total_pages_reviewed" = some v := by
        rw [hout, dget_dset_ne _ _ _ _ (by decide),
          extraStep_dget_preserved fc m4 _
            (fun p _ => ai_file_ne_of_head p.1 _ (by decide)),
          totalStep_dget_ne h4 (by decide), hm3, dget_dset_self]
      exact totalStep_core_none (by rw [hr]; exact totalCore_idem hc)
  have ht72 : totalStep out fc "total_pages_discovered" = .ok out := by
    rcases totalStep_cases h4 with ⟨hc, hm4⟩ | ⟨v, hc, hm4⟩
    · have hr : dget out "total_pages_discovered" = dget m3 "total_pages_discovered" := by
        rw [hout, dget_dset_ne _ _ _ _ (by decide),
          extraStep_dget_preserved fc m4 _
            (fun p _ => ai_file_ne_of_head p.1 _ (by decide)),
          hm4]
      exact totalStep_core_none (by rw [hr]; exact hc)
    · have hr : dget out "total_pages_discovered" = some v := by
        rw [hout, dget_dset_ne _ _ _ _ (by decide),
          extraStep_dget_preserved fc m4 _
            (fun p _ => ai_file_ne_of_head p.1 _ (by decide)),
          hm4, dget_dset_self]
      exact totalStep_core_none (by rw [hr]; exact totalCore_idem hc)
  have hex2 : extraStep out fc = out := by
    apply extraStep_noop
    intro p hp hne1 hne2 hfalse
    have hf5 : dcontains (extraStep m4 fc) p.1 = false := by
      cases hb : dcontains (extraStep m4 fc) p.1 with
      | false => rfl
      | true =>
          exfalso
          have htrue : dcontains out p.1 = true := by
            rw [hout]; exact dcontains_mono_dset _ _ hb
          rw [htrue] at hfalse
          exact Bool.noConfusion hfalse
    have hinv := extraStep_invariant fc m4 hnd p hp hne1 hne2 hf5
    rw [hout, dget_dset_ne _ _ _ _ (Ne.symm (ai_file_ne_of_head p.1 _ (by decide)))]
    exact hinv
  have hfin : dset out "has_ai_generated_file" (.bool true) = out := by
    apply dset_noop
    rw [hout]
    exact dget_dset_self _ _ _
  rw [mergeBody_obj, hm0, hpr2]
  simp only [Except.bind]
  rw [hsa2, ht62]
  simp only [Except.bind]
  rw [ht72]
  simp only [Except.bind]
  rw [hex2, hfin]

theorem totalTail_err_congr {N N' fc : Jdict} {e : String}
    (hr : dget N "total_pages_discovered" = dget N' "total_pages_discovered")
    (h : Except.bind (totalStep N fc "total_pages_discovered")
      (fun m4 => Except.ok (dset (extraStep m4 fc) "has_ai_generated_file"
        (.bool true))) = .error e) :
    Except.bind (totalStep N' fc "total_pages_discovered")
      (fun m4 => Except.ok (dset (extraStep m4 fc) "has_ai_generated_file"
        (.bool true))) = .error e := by
  cases hc : totalCore (dget N "total_pages_discovered")
      (dget fc "total_pages_discovered") with
  | error e2 =>
      rw [totalStep_core_err hc] at h
      simp only [Except.bind] at h
      rw [totalStep_core_err (by rw [← hr]; exact hc)]
      simpa only [Except.bind] using h
  | ok r =>
      cases r with
      | none =>
          rw [totalStep_core_none hc] at h
          simp only [Except.bind] at h
          exact absurd h (by simp)
      | some v =>
          rw [totalStep_core_some hc] at h
          simp only [Except.bind] at h
          exact absurd h (by simp)

theorem totalsTail_err_congr {M M' fc : Jdict} {e : String}
    (h6 : dget M "total_pages_reviewed" = dget M' "total_pages_reviewed")
    (h7 : dget M "total_pages_discovered" = dget M' "total_pages_discovered")
    (h : Except.bind (totalStep (saStep M fc) fc "total_pages_reviewed")
      (fun m3 => Except.bind (totalStep m3 fc "total_pages_discovered")
        (fun m4 => Except.ok (dset (extraStep m4 fc) "has_ai_generated_file"
          (.bool true)))) = .error e) :
    Except.bind (totalStep (saStep M' fc) fc "total_pages_reviewed")
      (fun m3 => Except.bind (totalStep m3 fc "total_pages_discovered")
        (fun m4 => Except.ok (dset (extraStep m4 fc) "has_ai_generated_file"
          (.bool true)))) = .error e := by
  have hs6 : dget (saStep M fc) "total_pages_reviewed" =
      dget M "total_pages_reviewed" := saStep_dget_ne (by decide) (by decide)
  have hs6' : dget (saStep M' fc) "total_pages_reviewed" =
      dget M' "total_pages_reviewed" := saStep_dget_ne (by decide) (by decide)
  have hs7 : dget (saStep M fc) "total_pages_discovered" =
      dget M "total_pages_discovered" := saStep_dget_ne (by decide) (by decide)
  have hs7' : dget (saStep M' fc) "total_pages_discovered" =
      dget M' "total_pages_discovered" := saStep_dget_ne (by decide) (by decide)
  cases hc : totalCore (dget M "total_pages_reviewed")
      (dget fc "total_pages_reviewed") with
  | error e1 =>
      rw [totalStep_core_err (by rw [hs6]; exact hc)] at h
      simp only [Except.bind] at h
      rw [totalStep_core_err (by rw [hs6', ← h6]; exact hc)]
      simpa only [Except.bind] using h
  | ok r =>
      cases r with
      | none =>
          rw [totalStep_core_none (by rw [hs6]; exact hc)] at h
          simp only [Except.bind] at h
          rw [totalStep_core_none (by rw [hs6', ← h6]; exact hc)]
          simp only [Except.bind]
          exact totalTail_err_congr (by rw [hs7, hs7', h7]) h
      | some v =>
          rw [totalStep_core_some (by rw [hs6]; exact hc)] at h
          simp only [Except.bind] at h
          rw [totalStep_core_some (by rw [hs6', ← h6]; exact hc)]
          simp only [Except.bind]
          refine totalTail_err_congr ?_ h
          rw [dget_dset_ne _ _ _ _ (by decide), dget_dset_ne _ _ _ _ (by decide),
            hs7, hs7', h7]

theorem mergeBody_err_congr {r r' : Jdict} {fc : Jdict} {e : String}
    (h2 : dget r "page_reviews" = dget r' "page_reviews")
    (h6 : dget r "total_pages_reviewed" = dget r' "total_pages_reviewed")
    (h7 : dget r "total_pages_discovered" = dget r' "total_pages_discovered")
    (h : mergeBody r (.obj fc) = .error e) :
    mergeBody r' (.obj fc) = .error e := by
  have e2x : dget (dset r' "ai_generated_file" (.obj fc)) "page_reviews" =
      dget (dset r "ai_generated_file" (.obj fc)) "page_reviews" := by
    rw [dget_dset_ne _ _ _ _ (by decide), dget_dset_ne _ _ _ _ (by decide), h2]
  have h6x : dget (dset r "ai_generated_file" (.obj fc)) "total_pages_reviewed" =
      dget (dset r' "ai_generated_file" (.obj fc)) "total_pages_reviewed" := by
    rw [dget_dset_ne _ _ _ _ (by decide), dget_dset_ne _ _ _ _ (by decide), h6]
  have h7x : dget (dset r "ai_generated_file" (.obj fc)) "total_pages_discovered" =
      dget (dset r' "ai_generated_file" (.obj fc)) "total_pages_discovered" := by
    rw [dget_dset_ne _ _ _ _ (by decide), dget_dset_ne _ _ _ _ (by decide), h7]
  rw [mergeBody_obj] at h
  rw [mergeBody_obj]
  cases hc : prCore (dget (dset r "ai_generated_file" (.obj fc)) "page_reviews") fc with
  | error e0 =>
      rw [prStep_core_err hc] at h
      simp only [Except.bind] at h
      rw [prStep_core_err (by rw [e2x]; exact hc)]
      simpa only [Except.bind] using h
  | ok r1 =>
      cases r1 with
      | none =>
          rw [prStep_core_none hc] at h
          simp only [Except.bind] at h
          rw [prStep_core_none (by rw [e2x]; exact hc)]
          simp only [Except.bind]
          exact totalsTail_err_congr h6x h7x h
      | some v =>
          rw [prStep_core_some hc] at h
          simp only [Except.bind] at h
          rw [prStep_core_some (by rw [e2x]; exact hc)]
          simp only [Except.bind]
          refine totalsTail_err_congr ?_ ?_ h
          · rw [dget_dset_ne _ _ _ _ (by decide), dget_dset_ne _ _ _ _ (by decide),
              dget_dset_ne _ _ _ _ (by decide), dget_dset_ne _ _ _ _ (by decide)]
            exact h6
          · rw [dget_dset_ne _ _ _ _ (by decide), dget_dset_ne _ _ _ _ (by decide),
              dget_dset_ne _ _ _ _ (by decide), dget_dset_ne _ _ _ _ (by decide)]
            exact h7

/-- C7 witness: the invariant at the observation point reached after the
first URL of the first round has been crawled. -/
theorem C7_witness :
    "https://d.com/" ∈ (crawlStep emptyOracle (netloc "https://d.com/").data
      (0, ["https://d.com/"], []) "https://d.com/").2.1 := by
  have h1 := @CrawlReach.startRound emptyOracle (netloc "https://d.com/").data 5
    "https://d.com/" 0 ["https://d.com/"] [] CrawlReach.init (by decide) (by decide)
  have heq : (frontier ["https://d.com/"] []).take 10 = ["https://d.com/"] := by decide
  rw [heq] at h1
  exact C7_processed_subset_discovered emptyOracle (netloc "https://d.com/").data 5
    "https://d.com/" (CrawlReach.stepUrl h1) "https://d.com/" (by decide)

theorem merge_content_ok {results : Jdict} {j : Json} {m : Jdict}
    (h : mergeBody results j = .ok m) :
    merge_results_with_file results (.content j) = m := by
  simp only [merge_results_with_file, h]

theorem merge_content_err {results : Jdict} {j : Json} {e : String}
    (h : mergeBody results j = .error e) :
    merge_results_with_file results (.content j) =
      dset results "ai_file_error" (.str ("File reading error: " ++ e)) := by
  simp only [merge_results_with_file, h]

theorem merge_content_nonobj_idem {results : Jdict} {j : Json}
    (hb : ∀ m : Jdict, mergeBody m j =
      .ok (dset (dset m "ai_generated_file" j) "has_ai_generated_file" (.bool true))) :
    merge_results_with_file (merge_results_with_file results (.content j))
        (.content j) =
      merge_results_with_file results (.content j) := by
  rw [merge_content_ok (hb results)]
  have hK1 : dget (dset (dset results "ai_generated_file" j)
      "has_ai_generated_file" (.bool true)) "ai_generated_file" = some j := by
    rw [dget_dset_ne _ _ _ _ (by decide), dget_dset_self]
  rw [merge_content_ok (hb (dset (dset results "ai_generated_file" j)
    "has_ai_generated_file" (.bool true)))]
  rw [dset_noop _ _ _ hK1]
  exact dset_noop _ _ _ (dget_dset_self _ _ _)

/-- C9 counterexample: a secondary file whose page-review list holds a
non-mapping entry makes the first merge succeed (its list replaces the
empty primary list) but the second merge raise while extracting the
existing URLs, so the second run adds an `ai_file_error` field and the
merge is not idempotent as claimed for every secondary source. -/
theorem C9_counterexample :
    merge_results_with_file
        (merge_results_with_file [] (.content c9BadSecondary))
        (.content c9BadSecondary) ≠
      merge_results_with_file [] (.content c9BadSecondary) := by decide

/-- C9 (amended): the merge is idempotent for every primary record
provided the secondary source is well formed: a parsed object's
page-review entries are all mappings and its keys are duplicate-free.
Merging the merged output with the same source again changes nothing,
whether the single merge succeeded or raised. -/
theorem C9_merge_idempotent (results : Jdict) (src : FileSrc)
    (hwf : SrcWF src = true) :
    merge_results_with_file (merge_results_with_file results src) src =
      merge_results_with_file results src := by
  cases src with
  | noFile =>
      simp only [merge_results_with_file]
      exact dset_dset_self results _ _ _
  | parseError msg =>
      simp only [merge_results_with_file]
      exact dset_dset_self results _ _ _
  | readError msg =>
      simp only [merge_results_with_file]
      exact dset_dset_self results _ _ _
  | content j =>
      cases j with
      | null => exact merge_content_nonobj_idem (fun m => rfl)
      | bool b => exact merge_content_nonobj_idem (fun m => rfl)
      | num q => exact merge_content_nonobj_idem (fun m => rfl)
      | str s => exact merge_content_nonobj_idem (fun m => rfl)
      | arr l => exact merge_content_nonobj_idem (fun m => rfl)
      | obj fc =>
          have hwf' : secPrWF fc = true ∧ (fc.map Prod.fst).Nodup := by
            unfold SrcWF at hwf
            simp only [Bool.and_eq_true, decide_eq_true_eq] at hwf
            exact hwf
          cases hrun : mergeBody results (.obj fc) with
          | ok out =>
              rw [merge_content_ok hrun,
                merge_content_ok (mergeBody_idem hwf'.1 hwf'.2 hrun)]
          | error e =>
              rw [merge_content_err hrun]
              have herr2 : mergeBody (dset results "ai_file_error"
                  (.str ("File reading error: " ++ e))) (.obj fc) = .error e := by
                refine mergeBody_err_congr ?_ ?_ ?_ hrun
                · exact (dget_dset_ne _ _ _ _ (by decide)).symm
                · exact (dget_dset_ne _ _ _ _ (by decide)).symm
                · exact (dget_dset_ne _ _ _ _ (by decide)).symm
              rw [merge_content_err herr2]
              exact dset_dset_self results _ _ _

/-- C9 witness: idempotence at a concrete well-formed secondary source and
an empty primary record. -/
theorem C9_witness :
    SrcWF (.content c9GoodSecondary) = true ∧
    merge_results_with_file
        (merge_results_with_file [] (.content c9GoodSecondary))
        (.content c9GoodSecondary) =
      merge_results_with_file [] (.content c9GoodSecondary) :=
  ⟨by decide, C9_merge_idempotent [] (.content c9GoodSecondary) (by decide)⟩

/-- C6: when the primary record's page-review list is `prim`, the parsed
secondary object's page-review list is `sec`, both lists hold only
mappings, and the two scalar-total comparisons are well typed, the merged
record's page-review list is exactly the one the spec describes —
secondary's list when strictly longer, otherwise primary's list followed
by exactly those secondary entries whose URL is not already present in
primary's list. -/
theorem C6_page_review_merge {results fc : Jdict} {prim sec : List Json}
    (hprim : (dget results "page_reviews").getD (.arr []) = .arr prim)
    (hpo : prim.all Json.isObj = true)
    (hsec : dget fc "page_reviews" = some (.arr sec))
    (hso : sec.all Json.isObj = true)
    (htot : TotalsWF results fc = true) :
    dget (merge_results_with_file results (.content (.obj fc))) "page_reviews" =
      some (.arr (spec_merged_pages prim sec)) := by
  have hK2m0 : dget (dset results "ai_generated_file" (.obj fc)) "page_reviews" =
      dget results "page_reviews" := dget_dset_ne _ _ _ _ (by decide)
  have hcore : prCore
      (dget (dset results "ai_generated_file" (.obj fc)) "page_reviews") fc =
      .ok (some (.arr (spec_merged_pages prim sec))) := by
    refine prCore_wf ?_ hpo hsec hso
    rw [hK2m0]
    exact hprim
  have h1 : prStep (dset results "ai_generated_file" (.obj fc)) fc =
      .ok (dset (dset results "ai_generated_file" (.obj fc)) "page_reviews"
        (.arr (spec_merged_pages prim sec))) := prStep_core_some hcore
  obtain ⟨ht6, ht7⟩ : totalWF (dget results "total_pages_reviewed")
        (dget fc "total_pages_reviewed") = true ∧
      totalWF (dget results "total_pages_discovered")
        (dget fc "total_pages_discovered") = true := by
    unfold TotalsWF at htot
    simp only [Bool.and_eq_true] at htot
    exact htot
  have h6wf : totalWF (dget (saStep (dset (dset results "ai_generated_file"
        (.obj fc)) "page_reviews" (.arr (spec_merged_pages prim sec))) fc)
        "total_pages_reviewed") (dget fc "total_pages_reviewed") = true := by
    rw [saStep_dget_ne (by decide) (by decide), dget_dset_ne _ _ _ _ (by decide),
      dget_dset_ne _ _ _ _ (by decide)]
    exact ht6
  obtain ⟨m3, h3, hp3⟩ := totalStep_ok_of_wf h6wf
  have h7wf : totalWF (dget m3 "total_pages_discovered")
      (dget fc "total_pages_discovered") = true := by
    rw [hp3 "total_pages_discovered" (by decide),
      saStep_dget_ne (by decide) (by decide), dget_dset_ne _ _ _ _ (by decide),
      dget_dset_ne _ _ _ _ (by decide)]
    exact ht7
  obtain ⟨m4, h4, hp4⟩ := totalStep_ok_of_wf h7wf
  have hfull : mergeBody results (.obj fc) =
      .ok (dset (extraStep m4 fc) "has_ai_generated_file" (.bool true)) := by
    rw [mergeBody_obj, h1]
    simp only [Except.bind]
    rw [h3]
    simp only [Except.bind]
    rw [h4]
  rw [merge_content_ok hfull, dget_dset_ne _ _ _ _ (by decide),
    extraStep_dget_preserved fc m4 _
      (fun p _ => ai_file_ne_of_head p.1 _ (by decide)),
    hp4 "page_reviews" (by decide), hp3 "page_reviews" (by decide),
    saStep_dget_ne (by decide) (by decide), dget_dset_self]

/-- C6 witness: the claim's scenario — two primary page reviews against
five secondary ones, so the longer secondary list replaces the primary
list entirely. -/
theorem C6_witness :
    ((dget c6results "page_reviews").getD (.arr []) = .arr c6prim ∧
      c6prim.all Json.isObj = true ∧
      dget c6file "page_reviews" = some (.arr c6sec) ∧
      c6sec.all Json.isObj = true ∧
      TotalsWF c6results c6file = true) ∧
    dget (merge_results_with_file c6results (.content (.obj c6file)))
        "page_reviews" =
      some (.arr (spec_merged_pages c6prim c6sec)) :=
  ⟨⟨by decide, by decide, by decide, by decide, by decide⟩,
    C6_page_review_merge (by decide) (by decide) (by decide) (by decide)
      (by decide)⟩

end DocsReviewer
